import Mathlib

/-!
# Verification of the skydive capture-and-correlation plane

A shallow embedding, in Lean 4, of the parts of the skydive agent that the
specification's claims are about:

* the UUID JSON rendering and parsing of `topology/graph/alert.go`
  (delegating to the `nu7hatch/gouuid` library),
* the sFlow agent and its port allocator (`sflow/agent.go`),
* the OVS sFlow probe handler (`flow/probes/ovssflow.go` and the earlier
  variant of the same file whose name is unknown, modelled separately),
* the alert engine (`topology/graph/alert.go`).

Pure Go functions become Lean functions; stateful code becomes explicit
state passing; Go's `(value, error)` returns become `Except`/`Option` or
small result inductives; machine integers are `Nat`/`Int` (no overflow is
relevant at the sizes involved).  Where the deciding code of the repository
is not part of the sources at hand (the `Graph` query methods live in a file
that is absent), the missing definitions are modelled from the spec and say
so in their doc comments.
-/

set_option autoImplicit false
set_option maxRecDepth 8000

namespace Skydive

/-!
## UUID rendering and parsing

`topology/graph/alert.go` lines 44-62.  `UUID.String` delegates to
`nu7hatch/gouuid`'s `UUID.String`, which renders the 16 bytes as lowercase
hex in hyphenated groups of 8-4-4-4-12 digits
(`fmt.Sprintf("%x-%x-%x-%x-%x", u[0:4], u[4:6], u[6:8], u[8:10], u[10:16])`).
`MarshalJSON` wraps that string in double quotes.  `UnmarshalJSON` strips
the first and last byte (`data[1 : len(data)-1]`) and calls
`uuid.ParseHex`, which matches the hyphenated shape (groups of `[a-z0-9]`
characters of lengths 8, 4, 4, 4, 12) and then hex-decodes the 32 digits
into 16 bytes with Go's `hex.Decode`.

A UUID is embedded as its 16 bytes: a `List Nat` of length 16 with every
element < 256.  `ParseHex` is modelled restricted to the plain hyphenated
form produced by `String` (the library's regex also tolerates an
`urn:uuid:` prefix and braces, which `MarshalJSON` never produces).  The
regex admits `[a-z0-9]` digits but `hex.Decode` then fails on `g`-`z`, so
the composite accepts exactly lowercase hex digits; `hexVal` models that
composite.
-/

/-- One lowercase hex digit, as produced by Go's `%x` formatting:
`0`-`9` then `a`-`f`. -/
def hexDigitChar (d : Nat) : Char :=
  if d < 10 then Char.ofNat (48 + d) else Char.ofNat (87 + d)

/-- The two lowercase hex digits of one byte (high digit first). -/
def byteHexChars (b : Nat) : List Char :=
  [hexDigitChar (b / 16), hexDigitChar (b % 16)]

/-- Hex rendering of a byte sequence (Go `%x` applied to a byte slice). -/
def bytesHexChars : List Nat → List Char
  | [] => []
  | b :: bs => byteHexChars b ++ bytesHexChars bs

/-- `UUID.String()` from `nu7hatch/gouuid`: hyphenated lowercase hex groups
of the byte ranges `[0:4]`, `[4:6]`, `[6:8]`, `[8:10]`, `[10:16]`. -/
def uuidStringChars (u : List Nat) : List Char :=
  bytesHexChars (u.take 4) ++
    ('-' :: (bytesHexChars ((u.drop 4).take 2) ++
      ('-' :: (bytesHexChars ((u.drop 6).take 2) ++
        ('-' :: (bytesHexChars ((u.drop 8).take 2) ++
          ('-' :: bytesHexChars (u.drop 10))))))))

/-- `UUID.MarshalJSON` (alert.go line 51): `"\"" + id.String() + "\""`. -/
def uuidMarshalJSON (u : List Nat) : List Char :=
  '"' :: (uuidStringChars u ++ ['"'])

/-- Value of one hex digit as accepted by the composite of gouuid's regex
(`[a-z0-9]` groups) and Go's `hex.Decode` (which rejects `g`-`z`): exactly
the lowercase hex digits decode. -/
def hexVal (c : Char) : Option Nat :=
  if '0' ≤ c ∧ c ≤ '9' then some (c.toNat - 48)
  else if 'a' ≤ c ∧ c ≤ 'f' then some (c.toNat - 87)
  else none

/-- Decode `n` bytes (2·`n` hex digits) from the front of `s`, returning the
bytes and the unconsumed rest. -/
def consumeHexBytes : Nat → List Char → Option (List Nat × List Char)
  | 0, s => some ([], s)
  | n + 1, c1 :: c2 :: s =>
    match hexVal c1, hexVal c2, consumeHexBytes n s with
    | some h, some l, some (bs, r) => some ((16 * h + l) :: bs, r)
    | _, _, _ => none
  | _ + 1, _ => none

/-- Expect one fixed character at the head of the input. -/
def expectChar (c : Char) : List Char → Option (List Char)
  | x :: s => if x = c then some s else none
  | [] => none

/-- `uuid.ParseHex` (nu7hatch/gouuid) on the canonical hyphenated form:
groups of 8, 4, 4, 4 and 12 hex digits separated by `-`, decoded into
16 bytes; anything else is rejected. -/
def uuidParseHex (s : List Char) : Option (List Nat) :=
  match consumeHexBytes 4 s with
  | none => none
  | some (b1, s1) =>
  match expectChar '-' s1 with
  | none => none
  | some s2 =>
  match consumeHexBytes 2 s2 with
  | none => none
  | some (b2, s3) =>
  match expectChar '-' s3 with
  | none => none
  | some s4 =>
  match consumeHexBytes 2 s4 with
  | none => none
  | some (b3, s5) =>
  match expectChar '-' s5 with
  | none => none
  | some s6 =>
  match consumeHexBytes 2 s6 with
  | none => none
  | some (b4, s7) =>
  match expectChar '-' s7 with
  | none => none
  | some s8 =>
  match consumeHexBytes 6 s8 with
  | none => none
  | some (b5, s9) =>
  match s9 with
  | [] => some (b1 ++ (b2 ++ (b3 ++ (b4 ++ b5))))
  | _ => none

/-- `UUID.UnmarshalJSON` (alert.go line 55): strip the first and last byte
(`data[1 : len(data)-1]`) and parse the rest as a hyphenated hex UUID. -/
def uuidUnmarshalJSON (data : List Char) : Option (List Nat) :=
  uuidParseHex ((data.drop 1).dropLast)

/-- A well-formed 128-bit identifier: 16 bytes, each below 256. -/
def ValidUUID (u : List Nat) : Prop :=
  u.length = 16 ∧ ∀ b ∈ u, b < 256

instance (u : List Nat) : Decidable (ValidUUID u) := by
  unfold ValidUUID; infer_instance

theorem hexVal_hexDigitChar {d : Nat} (h : d < 16) :
    hexVal (hexDigitChar d) = some d := by
  interval_cases d <;> decide

theorem consumeHexBytes_bytesHexChars (bs : List Nat) (s : List Char)
    (hb : ∀ b ∈ bs, b < 256) :
    consumeHexBytes bs.length (bytesHexChars bs ++ s) = some (bs, s) := by
  induction bs with
  | nil => rfl
  | cons b bs ih =>
    have hblt : b < 256 := hb b (List.mem_cons_self b bs)
    have hdiv : b / 16 < 16 := Nat.div_lt_of_lt_mul (by omega)
    have hmod : b % 16 < 16 := Nat.mod_lt _ (by omega)
    have hrec := ih (fun x hx => hb x (List.mem_cons_of_mem b hx))
    have hval : 16 * (b / 16) + b % 16 = b := by
      have := Nat.div_add_mod b 16
      omega
    simp only [List.length_cons, bytesHexChars, byteHexChars, List.cons_append,
      List.nil_append, List.append_eq, consumeHexBytes, hexVal_hexDigitChar hdiv,
      hexVal_hexDigitChar hmod, hrec, hval]

/-- `consumeHexBytes`, stated with the byte count given separately. -/
theorem consumeHexBytes_of_length (n : Nat) (bs : List Nat) (s : List Char)
    (hn : bs.length = n) (hb : ∀ b ∈ bs, b < 256) :
    consumeHexBytes n (bytesHexChars bs ++ s) = some (bs, s) := by
  subst hn
  exact consumeHexBytes_bytesHexChars bs s hb

theorem uuidParseHex_uuidStringChars (u : List Nat) (h : ValidUUID u) :
    uuidParseHex (uuidStringChars u) = some u := by
  obtain ⟨h16, hb⟩ := h
  have l1 : (u.take 4).length = 4 := by simp [List.length_take, h16]
  have l2 : ((u.drop 4).take 2).length = 2 := by simp [List.length_take, h16]
  have l3 : ((u.drop 6).take 2).length = 2 := by simp [List.length_take, h16]
  have l4 : ((u.drop 8).take 2).length = 2 := by simp [List.length_take, h16]
  have l5 : (u.drop 10).length = 6 := by simp [h16]
  have m1 : ∀ b ∈ u.take 4, b < 256 := fun b hmem => hb b (List.mem_of_mem_take hmem)
  have m2 : ∀ b ∈ (u.drop 4).take 2, b < 256 :=
    fun b hmem => hb b (List.mem_of_mem_drop (List.mem_of_mem_take hmem))
  have m3 : ∀ b ∈ (u.drop 6).take 2, b < 256 :=
    fun b hmem => hb b (List.mem_of_mem_drop (List.mem_of_mem_take hmem))
  have m4 : ∀ b ∈ (u.drop 8).take 2, b < 256 :=
    fun b hmem => hb b (List.mem_of_mem_drop (List.mem_of_mem_take hmem))
  have m5 : ∀ b ∈ u.drop 10, b < 256 := fun b hmem => hb b (List.mem_of_mem_drop hmem)
  have c5 : consumeHexBytes 6 (bytesHexChars (u.drop 10)) = some (u.drop 10, []) := by
    have := consumeHexBytes_of_length 6 (u.drop 10) [] l5 m5
    simpa using this
  have assemble : u.take 4 ++ ((u.drop 4).take 2 ++ ((u.drop 6).take 2 ++
      ((u.drop 8).take 2 ++ u.drop 10))) = u := by
    have e10 : (u.drop 8).drop 2 = u.drop 10 := by
      rw [List.drop_drop]
    have e8 : (u.drop 6).drop 2 = u.drop 8 := by
      rw [List.drop_drop]
    have e6 : (u.drop 4).drop 2 = u.drop 6 := by
      rw [List.drop_drop]
    rw [← e10, List.take_append_drop, ← e8, List.take_append_drop, ← e6,
      List.take_append_drop, List.take_append_drop]
  rw [uuidStringChars, uuidParseHex,
    consumeHexBytes_of_length 4 (u.take 4) _ l1 m1]
  simp only [expectChar, reduceIte]
  rw [consumeHexBytes_of_length 2 ((u.drop 4).take 2) _ l2 m2]
  simp only [expectChar, reduceIte]
  rw [consumeHexBytes_of_length 2 ((u.drop 6).take 2) _ l3 m3]
  simp only [expectChar, reduceIte]
  rw [consumeHexBytes_of_length 2 ((u.drop 8).take 2) _ l4 m4]
  simp only [expectChar, reduceIte]
  rw [c5]
  simp only [assemble]

/-- C9: unmarshalling the JSON produced by `MarshalJSON` yields the original
identifier. -/
theorem uuid_marshal_roundtrip (u : List Nat) (h : ValidUUID u) :
    uuidUnmarshalJSON (uuidMarshalJSON u) = some u := by
  have hdrop : ((uuidMarshalJSON u).drop 1).dropLast = uuidStringChars u := by
    simp [uuidMarshalJSON]
  rw [uuidUnmarshalJSON, hdrop]
  exact uuidParseHex_uuidStringChars u h


/-!
## The sFlow agent and its port allocator

`sflow/agent.go`.  `SFlowAgentAllocator` keeps a map from UDP port to the
agent bound on it; `Alloc` reads the listen address and the port range from
the configuration (defaulting to `127.0.0.1`, 6345, 6355), returns the
existing agent when the uuid already has one, and otherwise scans
`for i := min; i != max+1; i++` for the first unallocated port.
-/

/-- The fields of `SFlowAgent` the claims depend on (agent.go lines 52-64):
bridge uuid, listen address, allocated port.  The flow table, pipeline
and synchronisation fields play no role in the allocation claims. -/
structure SFlowAgent where
  UUID : String
  Addr : String
  Port : Nat
deriving DecidableEq

/-- `SFlowAgent.GetTarget` (agent.go lines 77-80): `addr:port`. -/
def SFlowAgent.GetTarget (a : SFlowAgent) : String :=
  a.Addr ++ ":" ++ toString a.Port

/-- The allocator's state: the `allocated` map from port to agent
(agent.go line 74), embedded as an association list keyed by port. -/
structure SFlowAgentAllocator where
  allocated : List (Nat × SFlowAgent)
deriving DecidableEq

/-- `NewSFlowAgentAllocator` (agent.go lines 279-285): empty map. -/
def NewSFlowAgentAllocator : SFlowAgentAllocator := ⟨[]⟩

/-- Result of `SFlowAgentAllocator.Alloc` (agent.go lines 237-277): the Go
`(agent, error)` pair in its three possible shapes — `(s, nil)`,
`(agent, AgentAlreadyAllocated)` and `(nil, "sflow port exhausted")`. -/
inductive AllocResult where
  | ok (agent : SFlowAgent)
  | alreadyAllocated (agent : SFlowAgent)
  | portExhausted
deriving DecidableEq

/-- The port scan of `Alloc` (agent.go lines 263-274):
`for i := min; i != max+1; i++ { if _, ok := allocated[i]; !ok { ... } }`.
The fuel argument counts the remaining loop iterations; the scan starts at
the lower bound with fuel `hi + 1 - lo`. -/
def scanFreePort (allocated : List (Nat × SFlowAgent)) : Nat → Nat → Option Nat
  | 0, _ => none
  | fuel + 1, i =>
    if (allocated.find? (fun p => p.1 == i)).isNone then some i
    else scanFreePort allocated fuel (i + 1)

/-- First unallocated port in `[lo, hi]`, ascending. -/
def findFreePort (allocated : List (Nat × SFlowAgent)) (lo hi : Nat) : Option Nat :=
  scanFreePort allocated (hi + 1 - lo) lo

/-- `SFlowAgentAllocator.Alloc` (agent.go lines 237-277).  `addr`, `lo`,
`hi` are the configuration values `sflow.bind_address`, `sflow.port_min`,
`sflow.port_max` after the zero-value defaulting at the top of `Alloc`
(the struct's own `MinPort`/`MaxPort` fields are not consulted by the Go
code).  An already-allocated uuid returns the existing agent with the
`AgentAlreadyAllocated` sentinel and leaves the map unchanged; otherwise
the first free port is taken and a new agent is recorded and started there;
if the scan finds no free port the call fails with "sflow port exhausted". -/
def SFlowAgentAllocator.Alloc (a : SFlowAgentAllocator) (uuid : String)
    (addr : String) (lo hi : Nat) : AllocResult × SFlowAgentAllocator :=
  match a.allocated.find? (fun p => p.2.UUID == uuid) with
  | some p => (.alreadyAllocated p.2, a)
  | none =>
    match findFreePort a.allocated lo hi with
    | some i =>
      let s : SFlowAgent := { UUID := uuid, Addr := addr, Port := i }
      (.ok s, ⟨a.allocated ++ [(i, s)]⟩)
    | none => (.portExhausted, a)

/-- `SFlowAgentAllocator.Release` (agent.go lines 213-224): stop and delete
every allocated agent whose uuid matches. -/
def SFlowAgentAllocator.Release (a : SFlowAgentAllocator) (uuid : String) :
    SFlowAgentAllocator :=
  ⟨a.allocated.filter (fun p => !(p.2.UUID == uuid))⟩

/-- `SFlowAgentAllocator.ReleaseAll` (agent.go lines 226-235). -/
def SFlowAgentAllocator.ReleaseAll (_ : SFlowAgentAllocator) : SFlowAgentAllocator :=
  ⟨[]⟩

/-- Port `q` has no entry in the allocator's map. -/
def portFree (a : SFlowAgentAllocator) (q : Nat) : Prop :=
  a.allocated.find? (fun p => p.1 == q) = none

instance (a : SFlowAgentAllocator) (q : Nat) : Decidable (portFree a q) := by
  unfold portFree; infer_instance

/-- No agent is allocated for `uuid`. -/
def uuidFree (a : SFlowAgentAllocator) (uuid : String) : Prop :=
  a.allocated.find? (fun p => p.2.UUID == uuid) = none

instance (a : SFlowAgentAllocator) (uuid : String) : Decidable (uuidFree a uuid) := by
  unfold uuidFree; infer_instance

theorem scanFreePort_some (allocated : List (Nat × SFlowAgent)) :
    ∀ (fuel i p : Nat), scanFreePort allocated fuel i = some p →
      i ≤ p ∧ p < i + fuel ∧ (allocated.find? (fun q => q.1 == p)).isNone = true ∧
        ∀ q, i ≤ q → q < p → (allocated.find? (fun r => r.1 == q)).isNone = false := by
  intro fuel
  induction fuel with
  | zero => intro i p h; simp [scanFreePort] at h
  | succ n ih =>
    intro i p h
    rw [scanFreePort] at h
    by_cases hfree : (allocated.find? (fun q => q.1 == i)).isNone = true
    · rw [if_pos hfree] at h
      obtain rfl : i = p := by injection h
      exact ⟨le_refl _, by omega, hfree, fun q h1 h2 => absurd (le_antisymm h1 (by omega)) (by omega)⟩
    · rw [if_neg hfree] at h
      obtain ⟨h1, h2, h3, h4⟩ := ih (i + 1) p h
      refine ⟨by omega, by omega, h3, fun q hq1 hq2 => ?_⟩
      rcases Nat.eq_or_lt_of_le hq1 with rfl | hlt
      · simpa using hfree
      · exact h4 q hlt hq2

theorem scanFreePort_none (allocated : List (Nat × SFlowAgent)) :
    ∀ (fuel i : Nat),
      (∀ q, i ≤ q → q < i + fuel → (allocated.find? (fun r => r.1 == q)).isNone = false) →
      scanFreePort allocated fuel i = none := by
  intro fuel
  induction fuel with
  | zero => intro i _; rfl
  | succ n ih =>
    intro i h
    rw [scanFreePort]
    have hi : (allocated.find? (fun r => r.1 == i)).isNone = false :=
      h i (le_refl _) (by omega)
    rw [if_neg (by simp [hi])]
    exact ih (i + 1) (fun q h1 h2 => h q (by omega) (by omega))

/-- The allocator states traversed by scenario S5 on the two-port range
`[6345, 6346]`: after allocating `u1` and `u2`. -/
def allocS5a : SFlowAgentAllocator :=
  ⟨[(6345, ⟨"u1", "127.0.0.1", 6345⟩)]⟩

def allocS5b : SFlowAgentAllocator :=
  ⟨[(6345, ⟨"u1", "127.0.0.1", 6345⟩), (6346, ⟨"u2", "127.0.0.1", 6346⟩)]⟩

def allocS5c : SFlowAgentAllocator :=
  ⟨[(6346, ⟨"u2", "127.0.0.1", 6346⟩)]⟩

/-- C2: `Alloc` selects ports first-fit ascending in the configured
`[lo, hi]` range and fails with "sflow port exhausted" when every port in
the range is allocated; on the two-port range `[6345, 6346]`, three
allocations of distinct uuids succeed on 6345 then 6346 then fail, and
after `Release` of the first uuid a fourth uuid is allocated on the freed
lowest port 6345 (scenario S5). -/
theorem alloc_first_fit_and_exhaustion :
    (∀ (a : SFlowAgentAllocator) (uuid addr : String) (lo hi : Nat)
        (s : SFlowAgent) (a' : SFlowAgentAllocator),
        a.Alloc uuid addr lo hi = (.ok s, a') →
        lo ≤ s.Port ∧ s.Port ≤ hi ∧ portFree a s.Port ∧
          ∀ q, lo ≤ q → q < s.Port → ¬ portFree a q) ∧
    (∀ (a : SFlowAgentAllocator) (uuid addr : String) (lo hi : Nat),
        uuidFree a uuid → (∀ q, q ≤ hi → lo ≤ q → ¬ portFree a q) →
        a.Alloc uuid addr lo hi = (.portExhausted, a)) ∧
    (NewSFlowAgentAllocator.Alloc "u1" "127.0.0.1" 6345 6346 =
        (.ok ⟨"u1", "127.0.0.1", 6345⟩, allocS5a) ∧
      allocS5a.Alloc "u2" "127.0.0.1" 6345 6346 =
        (.ok ⟨"u2", "127.0.0.1", 6346⟩, allocS5b) ∧
      allocS5b.Alloc "u3" "127.0.0.1" 6345 6346 = (.portExhausted, allocS5b) ∧
      allocS5b.Release "u1" = allocS5c ∧
      allocS5c.Alloc "u4" "127.0.0.1" 6345 6346 =
        (.ok ⟨"u4", "127.0.0.1", 6345⟩,
          ⟨[(6346, ⟨"u2", "127.0.0.1", 6346⟩), (6345, ⟨"u4", "127.0.0.1", 6345⟩)]⟩)) := by
  refine ⟨?_, ?_, by decide⟩
  · intro a uuid addr lo hi s a' h
    rw [SFlowAgentAllocator.Alloc] at h
    cases hfind : a.allocated.find? (fun p => p.2.UUID == uuid) with
    | some p => rw [hfind] at h; simp at h
    | none =>
      rw [hfind] at h
      cases hport : findFreePort a.allocated lo hi with
      | none => rw [hport] at h; simp at h
      | some i =>
        rw [hport] at h
        simp only [Prod.mk.injEq, AllocResult.ok.injEq] at h
        obtain ⟨hs, -⟩ := h
        subst hs
        rw [findFreePort] at hport
        obtain ⟨hlo, hup, hfree, hbusy⟩ := scanFreePort_some _ _ _ _ hport
        refine ⟨hlo, show i ≤ hi by omega, Option.isNone_iff_eq_none.mp hfree, ?_⟩
        intro q hq1 hq2 hpf
        rw [portFree] at hpf
        have := hbusy q hq1 hq2
        rw [hpf] at this
        simp at this
  · intro a uuid addr lo hi hufree hbusy
    rw [SFlowAgentAllocator.Alloc, hufree]
    have hnone : findFreePort a.allocated lo hi = none := by
      rw [findFreePort]
      apply scanFreePort_none
      intro q h1 h2
      have hq : ¬ portFree a q := hbusy q (by omega) h1
      rw [portFree] at hq
      cases hcase : (a.allocated.find? (fun r => r.1 == q)) with
      | none => exact absurd hcase hq
      | some v => simp [hcase]
    rw [hnone]

/-- Witness for C2: the first-fit conjunct applied at the concrete second
allocation of scenario S5. -/
theorem alloc_first_fit_and_exhaustion_witness :
    allocS5a.Alloc "u2" "127.0.0.1" 6345 6346 =
      (.ok ⟨"u2", "127.0.0.1", 6346⟩, allocS5b) ∧
    (6345 ≤ (6346 : Nat) ∧ (6346 : Nat) ≤ 6346 ∧ portFree allocS5a 6346 ∧
      ∀ q, 6345 ≤ q → q < 6346 → ¬ portFree allocS5a q) := by
  constructor
  · decide
  · exact alloc_first_fit_and_exhaustion.1 allocS5a "u2" "127.0.0.1" 6345 6346
      ⟨"u2", "127.0.0.1", 6346⟩ allocS5b (by decide)

/-- The allocator invariant of C8: every entry's agent carries the port it
is keyed on and that port lies in `[lo, hi]`; ports are pairwise distinct;
uuids are pairwise distinct (at most one agent per uuid). -/
def AllocatorInv (a : SFlowAgentAllocator) (lo hi : Nat) : Prop :=
  (∀ p ∈ a.allocated, p.2.Port = p.1 ∧ lo ≤ p.1 ∧ p.1 ≤ hi) ∧
  (a.allocated.map Prod.fst).Nodup ∧
  (a.allocated.map (fun p => p.2.UUID)).Nodup

instance (a : SFlowAgentAllocator) (lo hi : Nat) : Decidable (AllocatorInv a lo hi) := by
  unfold AllocatorInv; infer_instance

/-- C8: the allocator keeps at most one agent per uuid — `Alloc` on an
already-allocated uuid returns the existing agent with the
`AgentAlreadyAllocated` sentinel and an unchanged map — and the invariant
"all ports pairwise distinct and within `[lo, hi]`, all uuids pairwise
distinct" holds initially and is preserved by `Alloc` and `Release`. -/
theorem allocator_at_most_one_agent_per_uuid :
    (∀ lo hi, AllocatorInv NewSFlowAgentAllocator lo hi) ∧
    (∀ (a : SFlowAgentAllocator) (uuid addr : String) (lo hi : Nat)
        (p : Nat × SFlowAgent),
        a.allocated.find? (fun q => q.2.UUID == uuid) = some p →
        a.Alloc uuid addr lo hi = (.alreadyAllocated p.2, a)) ∧
    (∀ (a : SFlowAgentAllocator) (uuid addr : String) (lo hi : Nat),
        AllocatorInv a lo hi → AllocatorInv (a.Alloc uuid addr lo hi).2 lo hi) ∧
    (∀ (a : SFlowAgentAllocator) (uuid : String) (lo hi : Nat),
        AllocatorInv a lo hi → AllocatorInv (a.Release uuid) lo hi) := by
  refine ⟨?_, ?_, ?_, ?_⟩
  · intro lo hi
    simp [AllocatorInv, NewSFlowAgentAllocator]
  · intro a uuid addr lo hi p hfind
    rw [SFlowAgentAllocator.Alloc, hfind]
  · intro a uuid addr lo hi hinv
    obtain ⟨hrange, hports, huuids⟩ := hinv
    rw [SFlowAgentAllocator.Alloc]
    cases hfind : a.allocated.find? (fun p => p.2.UUID == uuid) with
    | some p => exact ⟨hrange, hports, huuids⟩
    | none =>
      cases hport : findFreePort a.allocated lo hi with
      | none => exact ⟨hrange, hports, huuids⟩
      | some i =>
        rw [findFreePort] at hport
        obtain ⟨hlo, hup, hfree, -⟩ := scanFreePort_some _ _ _ _ hport
        have hfree' : a.allocated.find? (fun p => p.1 == i) = none :=
          Option.isNone_iff_eq_none.mp hfree
        have hiNotMem : i ∉ a.allocated.map Prod.fst := by
          intro hmem
          obtain ⟨q, hq, hqi⟩ := List.mem_map.mp hmem
          have := List.find?_eq_none.mp hfree' q hq
          simp [hqi] at this
        have huNotMem : uuid ∉ a.allocated.map (fun p => p.2.UUID) := by
          intro hmem
          obtain ⟨q, hq, hqu⟩ := List.mem_map.mp hmem
          have := List.find?_eq_none.mp hfind q hq
          simp [hqu] at this
        refine ⟨?_, ?_, ?_⟩
        · intro p hp
          rcases List.mem_append.mp hp with hin | hnew
          · exact hrange p hin
          · rcases List.mem_singleton.mp hnew with rfl
            exact ⟨rfl, hlo, by omega⟩
        · rw [List.map_append, List.nodup_append]
          exact ⟨hports, List.nodup_singleton _, by
            simp only [List.map_cons, List.map_nil]
            intro x hx hx'
            rcases List.mem_singleton.mp hx' with rfl
            exact hiNotMem hx⟩
        · rw [List.map_append, List.nodup_append]
          exact ⟨huuids, List.nodup_singleton _, by
            simp only [List.map_cons, List.map_nil]
            intro x hx hx'
            rcases List.mem_singleton.mp hx' with rfl
            exact huNotMem hx⟩
  · intro a uuid lo hi hinv
    obtain ⟨hrange, hports, huuids⟩ := hinv
    refine ⟨?_, ?_, ?_⟩
    · intro p hp
      exact hrange p (List.mem_of_mem_filter hp)
    · exact hports.sublist ((List.filter_sublist _).map _)
    · exact huuids.sublist ((List.filter_sublist _).map _)

/-- Witness for C8: the already-allocated conjunct at a concrete state. -/
theorem allocator_at_most_one_agent_per_uuid_witness :
    allocS5a.allocated.find? (fun q => q.2.UUID == "u1") =
      some (6345, ⟨"u1", "127.0.0.1", 6345⟩) ∧
    allocS5a.Alloc "u1" "127.0.0.1" 6345 6346 =
      (.alreadyAllocated ⟨"u1", "127.0.0.1", 6345⟩, allocS5a) := by
  refine ⟨by decide, ?_⟩
  exact allocator_at_most_one_agent_per_uuid.2.1 allocS5a "u1" "127.0.0.1"
    6345 6346 (6345, ⟨"u1", "127.0.0.1", 6345⟩) (by decide)

/-!
## Agent startup and the bind error

`SFlowAgent.Start` (agent.go lines 158-160) is `go sfa.start()`: it spawns
the private `start` on a goroutine and returns immediately.  Its Go
signature `func (sfa *SFlowAgent) Start()` carries no return value, so
whatever `start` returns — in particular the error of a failed
`net.ListenUDP` bind (agent.go lines 119-123) — is discarded and never
reaches the caller of `Start`.
-/

/-- Outcome of the `net.ListenUDP` bind in `SFlowAgent.start`
(agent.go line 119). -/
inductive BindResult where
  | ok
  | err (msg : String)
deriving DecidableEq

/-- `SFlowAgent.start` (agent.go lines 114-156), abstracted to the bind
step: a bind error is logged and returned at once, the read loop is never
entered; on a successful bind the loop runs and the function eventually
returns nil.  `.ok ()` stands for the read loop having been entered. -/
def SFlowAgent.start (b : BindResult) : Except String Unit :=
  match b with
  | .err e => .error e
  | .ok => .ok ()

/-- `SFlowAgent.Start` (agent.go lines 158-160): `go sfa.start()`.  The
first component is what the caller observes — the bare unit value, since
the Go method returns nothing — and the second is what the spawned
goroutine produces in the background. -/
def SFlowAgent.Start (b : BindResult) : Unit × Except String Unit :=
  ((), SFlowAgent.start b)

/-- Counterexample to C3: at the concrete bind error "listen udp:
address already in use", the caller of `Start()` observes exactly the same
(unit) result as on a successful bind — `Start()` does not fail — even
though the background goroutine does return the bind error. -/
theorem start_bind_error_not_surfaced :
    (SFlowAgent.Start (.err "listen udp: address already in use")).1 =
      (SFlowAgent.Start .ok).1 ∧
    (SFlowAgent.Start (.err "listen udp: address already in use")).2 =
      .error "listen udp: address already in use" := by
  constructor <;> rfl

/-- C3 as amended: a UDP bind failure makes the internal `start` routine
return the error without ever entering the read loop, but the exported
`Start()` launches that routine asynchronously and surfaces nothing to its
caller; the enclosing subsystem is not informed. -/
theorem start_bind_error_aborts_goroutine (e : String) :
    SFlowAgent.start (.err e) = .error e ∧
      (SFlowAgent.Start (.err e)).1 = (SFlowAgent.Start .ok).1 := by
  constructor <;> rfl

/-!
## The probe-path cache and its bounded updater channel

The earlier variant of the ovssflow probe handler (`src/unnamed/part_000`).
`GetProbePath` (lines 119-128) consults the TTL cache; on a miss it
executes the plain channel send `o.cacheUpdaterChan <- index` — a blocking
send on a buffered channel of capacity 200 (line 395) — and then returns
the empty path.  The cache is embedded as an association list from
interface index to path (an entry present means cached and unexpired; the
Go key is the decimal string of the index, an injective image of the
index itself); the channel as its buffered contents plus its capacity.
-/

namespace ProbesV0

/-- Cache state of the earlier `OvsSFlowProbesHandler` (part_000 lines
56-66): TTL cache contents and the bounded `cacheUpdaterChan`. -/
structure CacheState where
  cache : List (Int × String)
  chan : List Int
  chanCap : Nat
deriving DecidableEq

/-- Result of one `GetProbePath` call (part_000 lines 119-128).  `hit`:
cached, the path is returned, no other effect.  `missSent`: cache miss,
the send found buffer space, the index is enqueued and `""` returned.
`missBlocked`: cache miss with a full channel buffer — the send, and with
it the whole call, blocks until the cache updater drains an element; in
this atomic-step model the call does not return. -/
inductive GetProbePathResult where
  | hit (ret : String) (after : CacheState)
  | missSent (ret : String) (after : CacheState)
  | missBlocked
deriving DecidableEq

/-- `OvsSFlowProbesHandler.GetProbePath` (part_000 lines 119-128). -/
def GetProbePath (s : CacheState) (index : Int) : GetProbePathResult :=
  match s.cache.find? (fun p => p.1 == index) with
  | some p => .hit p.2 s
  | none =>
    if s.chan.length < s.chanCap then
      .missSent "" { s with chan := s.chan ++ [index] }
    else .missBlocked

/-- A state whose cache-updater channel is full: 200 pending requests on
the capacity-200 channel built by `NewOvsSFlowProbesHandler`
(part_000 line 395). -/
def fullChanState : CacheState :=
  ⟨[], List.replicate 200 7, 200⟩

/-- Counterexample to C4: with the channel full, a cache-miss lookup does
not drop the request and return the empty path — the blocking send never
completes, so the call blocks (`missBlocked`) instead of returning with
the state unchanged. -/
theorem getProbePath_full_chan_blocks :
    GetProbePath fullChanState 5 = .missBlocked ∧
      GetProbePath fullChanState 5 ≠ .missSent "" fullChanState := by
  constructor <;> decide

/-- C4 as amended: on a cache hit the cached path is returned unchanged;
on a cache miss the empty path is returned after the index is enqueued on
the cache-updater channel, which blocks — rather than dropping the
request — whenever the channel buffer is full. -/
theorem getProbePath_miss_enqueues_or_blocks (s : CacheState) (index : Int) :
    (∀ p, s.cache.find? (fun q => q.1 == index) = some p →
      GetProbePath s index = .hit p.2 s) ∧
    (s.cache.find? (fun q => q.1 == index) = none →
      s.chan.length < s.chanCap →
      GetProbePath s index = .missSent "" { s with chan := s.chan ++ [index] }) ∧
    (s.cache.find? (fun q => q.1 == index) = none →
      ¬ s.chan.length < s.chanCap →
      GetProbePath s index = .missBlocked) := by
  refine ⟨?_, ?_, ?_⟩
  · intro p hp
    rw [GetProbePath, hp]
  · intro hmiss hroom
    rw [GetProbePath, hmiss]
    simp [hroom]
  · intro hmiss hfull
    rw [GetProbePath, hmiss]
    simp [hfull]

/-- Witness for the amended C4 at concrete inputs: a one-slot channel with
room accepts the enqueue. -/
theorem getProbePath_miss_enqueues_or_blocks_witness :
    (⟨[], [], 1⟩ : CacheState).cache.find? (fun q => q.1 == (3 : Int)) = none ∧
    ([] : List Int).length < 1 ∧
    GetProbePath ⟨[], [], 1⟩ 3 = .missSent "" ⟨[], [3], 1⟩ := by
  refine ⟨by decide, by decide, ?_⟩
  exact (getProbePath_miss_enqueues_or_blocks ⟨[], [], 1⟩ 3).2.1 (by decide) (by decide)

end ProbesV0

/-!
## Graph nodes and metadata

Nodes carry an identifier and a metadata map from short string keys to
scalar values (`topology/graph` data model; §3 of the spec).  Go map
indexing `n.Metadata()[key]` yields the nil interface for an absent key,
embedded here as `none`.
-/

/-- A scalar metadata value (boolean, integer or string — the scalar
shapes the claims exercise). -/
inductive MetaValue where
  | str (s : String)
  | int (n : Int)
  | bool (b : Bool)
deriving DecidableEq

/-- A graph node: identifier plus metadata. -/
structure Node where
  ID : String
  metadata : List (String × MetaValue)
deriving DecidableEq

/-- `n.Metadata()[key]` — Go map indexing, `none` when absent. -/
def Node.metaLookup (n : Node) (key : String) : Option MetaValue :=
  (n.metadata.find? (fun p => p.1 == key)).map Prod.snd

/-!
## The alert engine

`topology/graph/alert.go`.  The in-memory rule store is the map
`alerts : map[UUID]AlertTest`, embedded as an association list keyed by
the rule uuid's 16 bytes.  `CreateTime` and message timestamps are real
time and stay outside the model.
-/

/-- `AlertType` (alert.go lines 73-78). -/
inductive AlertType where
  | FIXED
  | THRESHOLD
deriving DecidableEq

/-- `AlertTest` with its embedded `AlertTestParam`
(alert.go lines 80-94). -/
structure AlertTest where
  Name : String
  Description : String
  Select : String
  Test : String
  Action : String
  UUID : List Nat
  «Type» : AlertType
  Count : Int
deriving DecidableEq

/-- `AlertMessage` (alert.go lines 135-142), minus the real-time
`Timestamp` field. -/
structure AlertMessage where
  UUID : List Nat
  «Type» : AlertType
  Count : Int
  Reason : String
  ReasonData : Node
deriving DecidableEq

/-- Modelled from the spec: `Graph.LookupNodesFromKey(key)` — the graph
method lives in a source file that is absent from the sources at hand;
§4.1 lists the operation and §3/§4.6 describe the select-expression as "a
metadata-key predicate string picking candidate nodes", so the candidates
are the nodes whose metadata carries the key. -/
def lookupNodesFromKey (g : List Node) (key : String) : List Node :=
  g.filter (fun n => (n.metaLookup key).isSome)

/-- One rule's pass of `EvalNodes` (alert.go lines 169-211) over the
candidate nodes, in order.  `testEval` abstracts the go-eval
compile-and-run of `"(" + al.Test + ") == true"` against the node's
metadata scope: `none` models a compile or runtime error (logged, node
skipped), `some b` a clean evaluation.  The threaded `AlertTest` is the Go
loop variable `al` — the range-loop COPY of the stored rule — whose
`Count` is incremented on each firing; each firing appends a message
carrying the copy's new count. -/
def evalAlert (testEval : AlertTest → Node → Option Bool) :
    List Node → AlertTest → AlertTest × List AlertMessage
  | [], al => (al, [])
  | n :: ns, al =>
    match testEval al n with
    | some true =>
      let al' := { al with Count := al.Count + 1 }
      let rest := evalAlert testEval ns al'
      (rest.1, { UUID := al'.UUID, «Type» := .FIXED, Count := al'.Count,
                 Reason := al'.Action, ReasonData := n } :: rest.2)
    | _ => evalAlert testEval ns al

/-- `AlertManager.EvalNodes` (alert.go lines 165-212).  The Go loop
`for _, al := range a.alerts` binds `al` to a COPY of each stored rule,
so `al.Count++` mutates only that per-call copy; the stored map is written
by nothing in `EvalNodes` (only `SetAlertTest`/`DeleteAlertTest` write
it).  The function accordingly returns the emitted messages and the map
the caller holds is unchanged; the per-rule copies are discarded when the
loop ends. -/
def evalNodes (testEval : AlertTest → Node → Option Bool) (g : List Node) :
    List (List Nat × AlertTest) → List AlertMessage
  | [] => []
  | p :: rest =>
    (evalAlert testEval (lookupNodesFromKey g p.2.Select) p.2).2 ++
      evalNodes testEval g rest

/-- `AlertManager.SetAlertTest` (alert.go lines 248-252): the Go map
assignment `a.alerts[*at.UUID] = *at` — replace the entry with that uuid
or append a new one. -/
def setAlertTest (alerts : List (List Nat × AlertTest)) (t : AlertTest) :
    List (List Nat × AlertTest) :=
  if alerts.any (fun p => p.1 == t.UUID) then
    alerts.map (fun p => if p.1 == t.UUID then (p.1, t) else p)
  else alerts ++ [(t.UUID, t)]

/-- `AlertManager.DeleteAlertTest` (alert.go lines 254-265): "Not found"
when no rule has the uuid, otherwise delete it. -/
def deleteAlertTest (alerts : List (List Nat × AlertTest)) (id : List Nat) :
    Except String (List (List Nat × AlertTest)) :=
  if alerts.any (fun p => p.1 == id) then
    .ok (alerts.filter (fun p => !(p.1 == id)))
  else .error "Not found"

/-- Go `path.Base`: trailing slashes removed, then everything after the
last remaining slash; "." for the empty path, "/" when the path consists
only of slashes. -/
def pathBase (s : List Char) : List Char :=
  if s = [] then ['.']
  else
    let r := s.reverse.dropWhile (fun c => c == '/')
    if r = [] then ['/']
    else (r.takeWhile (fun c => !(c == '/'))).reverse

/-- The byte value of a watcher event as consumed by `alertTestFromData`
(alert.go lines 332-338): `json.Unmarshal` either deserializes it into an
`AlertTest` or fails.  JSON decoding itself is an external library; a
value is embedded as the rule it deserializes to, or as garbage. -/
inductive EtcdValue where
  | rule (t : AlertTest)
  | garbage
deriving DecidableEq

/-- `alertTestFromData` (alert.go lines 332-338). -/
def alertTestFromData : EtcdValue → Option AlertTest
  | .rule t => some t
  | .garbage => none

/-- One event delivered by `watcher.Next` (alert.go lines 364-375). -/
structure EtcdEvent where
  action : String
  key : List Char
  value : EtcdValue
  isDir : Bool
deriving DecidableEq

/-- One iteration of the watcher goroutine of `NewAlertManager`
(alert.go lines 365-398) acting on the in-memory rule map: directory
events are skipped; `create`/`set`/`update` deserialize the value and
upsert it (a deserialization failure is logged and the event skipped);
`delete`/`expire` parse the last path segment of the key as a uuid and
remove that rule (an unparseable segment skips the event; a missing rule
makes `DeleteAlertTest` return "Not found", which is ignored); any other
action falls through the switch and does nothing. -/
def processEvent (alerts : List (List Nat × AlertTest)) (ev : EtcdEvent) :
    List (List Nat × AlertTest) :=
  if ev.isDir then alerts
  else if ev.action == "create" || ev.action == "set" || ev.action == "update" then
    match alertTestFromData ev.value with
    | some t => setAlertTest alerts t
    | none => alerts
  else if ev.action == "delete" || ev.action == "expire" then
    match uuidParseHex (pathBase ev.key) with
    | some id =>
      match deleteAlertTest alerts id with
      | .ok alerts' => alerts'
      | .error _ => alerts
    | none => alerts
  else alerts

/-- The watcher goroutine over a stream of events: each event is processed
in turn and the loop continues with the next one. -/
def watcherRun (alerts : List (List Nat × AlertTest)) :
    List EtcdEvent → List (List Nat × AlertTest)
  | [] => alerts
  | ev :: evs => watcherRun (processEvent alerts ev) evs


/-- C6: the alert engine's KV watcher, for every received non-directory
event: on action `create`, `set` or `update` it deserializes the value and
upserts the rule into the in-memory map; on `delete` or `expire` it
removes the rule whose uuid is the last segment of the event key; on a
malformed event (undeserializable value, or unparseable uuid segment) it
skips the event, leaving the map unchanged; and in every case the watcher
loop continues with the remaining events. -/
theorem watcher_event_processing :
    (∀ alerts (ev : EtcdEvent) t, ev.isDir = false →
      (ev.action = "create" ∨ ev.action = "set" ∨ ev.action = "update") →
      alertTestFromData ev.value = some t →
      processEvent alerts ev = setAlertTest alerts t) ∧
    (∀ alerts (ev : EtcdEvent) id, ev.isDir = false →
      (ev.action = "delete" ∨ ev.action = "expire") →
      uuidParseHex (pathBase ev.key) = some id →
      processEvent alerts ev = alerts.filter (fun p => !(p.1 == id))) ∧
    (∀ alerts (ev : EtcdEvent), ev.isDir = false →
      (ev.action = "create" ∨ ev.action = "set" ∨ ev.action = "update") →
      alertTestFromData ev.value = none →
      processEvent alerts ev = alerts) ∧
    (∀ alerts (ev : EtcdEvent), ev.isDir = false →
      (ev.action = "delete" ∨ ev.action = "expire") →
      uuidParseHex (pathBase ev.key) = none →
      processEvent alerts ev = alerts) ∧
    (∀ alerts (ev : EtcdEvent) evs,
      watcherRun alerts (ev :: evs) = watcherRun (processEvent alerts ev) evs) := by
  refine ⟨?_, ?_, ?_, ?_, fun alerts ev evs => rfl⟩
  · intro alerts ev t hdir hact hval
    rcases hact with h | h | h <;>
      simp [processEvent, hdir, h, hval]
  · intro alerts ev id hdir hact hid
    have hgoal : (match deleteAlertTest alerts id with
        | .ok alerts2 => alerts2
        | .error _ => alerts) = alerts.filter (fun p => !(p.1 == id)) := by
      rw [deleteAlertTest]
      by_cases hany : alerts.any (fun p => p.1 == id) = true
      · rw [if_pos hany]
      · rw [if_neg hany]
        symm
        apply List.filter_eq_self.mpr
        intro p hp
        have hfalse : alerts.any (fun p => p.1 == id) = false := by
          cases hb : alerts.any (fun p => p.1 == id)
          · rfl
          · exact absurd hb hany
        have := List.any_eq_false.mp hfalse p hp
        simpa using this
    rcases hact with h | h <;>
      · simp [processEvent, hdir, h, hid]
        exact hgoal
  · intro alerts ev hdir hact hval
    rcases hact with h | h | h <;> simp [processEvent, hdir, h, hval]
  · intro alerts ev hdir hact hid
    rcases hact with h | h <;> simp [processEvent, hdir, h, hid]


/-- A concrete 16-byte rule identifier used by the scenario theorems. -/
def sampleUUID : List Nat :=
  [18, 52, 86, 120, 154, 188, 222, 240, 1, 35, 69, 103, 137, 171, 205, 239]

/-- The S3 rule `{Select: "Type", Test: "Type == \"host\""}` with the
stored fire count 0 it has when freshly created (`Create` sets
`at.Count = 0`, alert.go line 311). -/
def hostRule : AlertTest :=
  ⟨"r", "", "Type", "Type == \"host\"", "alert-action", sampleUUID, .FIXED, 0⟩

/-- Witness for C6: the upsert conjunct at a concrete `set` event. -/
theorem watcher_event_processing_witness :
    ((⟨"set", "/alert/x".data, .rule hostRule, false⟩ : EtcdEvent).isDir = false ∧
      alertTestFromData (.rule hostRule) = some hostRule) ∧
    processEvent [] ⟨"set", "/alert/x".data, .rule hostRule, false⟩ =
      setAlertTest [] hostRule := by
  refine ⟨⟨rfl, rfl⟩, ?_⟩
  exact watcher_event_processing.1 [] ⟨"set", "/alert/x".data, .rule hostRule, false⟩
    hostRule rfl (.inr (.inl rfl)) rfl

/-- The concrete go-eval semantics of the S3 test expression
`(Type == "host") == true` under the expression language of §4.6: a clean
evaluation that is true exactly when the node's `Type` metadata is the
string "host".  Instantiates the abstract `testEval` step of
`evalAlert`/`evalNodes`. -/
def testTypeIsHost (_ : AlertTest) (n : Node) : Option Bool :=
  some (n.metaLookup "Type" == some (.str "host"))

/-- First node of scenario S3: metadata `{Type: "host", Name: "h1"}`. -/
def hostNode1 : Node := ⟨"n1", [("Type", .str "host"), ("Name", .str "h1")]⟩

/-- The identically-attributed node added second in scenario S3. -/
def hostNode2 : Node := ⟨"n2", [("Type", .str "host"), ("Name", .str "h1")]⟩

/-- Counterexample to C1, at the concrete S3 scenario.  `EvalNodes` runs on
the stored rule map after each node addition (`OnNodeAdded`,
alert.go lines 244-246).  The Go loop variable `al` is a range-loop copy
of the stored rule, so `al.Count++` (line 194) never reaches the map: the
first addition emits one message with `Count = 1` while the stored count
stays 0; the second, identical addition re-evaluates BOTH matching nodes
against the unchanged stored count and emits two further messages with
counts 1 and 2 — not the single message with `Count = 2` the claim
predicts — for a total of three messages against a stored fire count
of 0. -/
theorem alert_fire_count_counterexample :
    evalNodes testTypeIsHost [hostNode1] [(sampleUUID, hostRule)] =
      [⟨sampleUUID, .FIXED, 1, "alert-action", hostNode1⟩] ∧
    evalNodes testTypeIsHost [hostNode1, hostNode2] [(sampleUUID, hostRule)] =
      [⟨sampleUUID, .FIXED, 1, "alert-action", hostNode1⟩,
        ⟨sampleUUID, .FIXED, 2, "alert-action", hostNode2⟩] ∧
    evalNodes testTypeIsHost [hostNode1, hostNode2] [(sampleUUID, hostRule)] ≠
      [⟨sampleUUID, .FIXED, 2, "alert-action", hostNode2⟩] := by
  exact ⟨by decide, by decide, by decide⟩

/-- Unfolding of `evalAlert` on a firing candidate: the copy's count is
bumped and the message carrying the bumped count is prepended. -/
theorem evalAlert_cons_fire (testEval : AlertTest → Node → Option Bool)
    (n : Node) (ns : List Node) (al : AlertTest)
    (h : testEval al n = some true) :
    evalAlert testEval (n :: ns) al =
      ((evalAlert testEval ns { al with Count := al.Count + 1 }).1,
        { UUID := al.UUID, «Type» := .FIXED, Count := al.Count + 1,
          Reason := al.Action, ReasonData := n } ::
          (evalAlert testEval ns { al with Count := al.Count + 1 }).2) := by
  rw [evalAlert, h]

/-- Unfolding of `evalAlert` on a candidate whose test errors or is
false: the node is skipped. -/
theorem evalAlert_cons_skip (testEval : AlertTest → Node → Option Bool)
    (n : Node) (ns : List Node) (al : AlertTest)
    (h : testEval al n = none ∨ testEval al n = some false) :
    evalAlert testEval (n :: ns) al = evalAlert testEval ns al := by
  rcases h with h | h <;> rw [evalAlert, h]

/-- C1 as amended: within one `EvalNodes` pass a rule's messages carry the
consecutive counts `Count+1, …, Count+k` computed on the per-call copy of
the stored rule (`k` = number of candidates whose test fired), and the
copy ends the pass with `Count+k`; the stored map itself is never written
by evaluation — `evalNodes` returns messages only — so the stored fire
count is constant across successive evaluations (hence trivially
non-decreasing) and the per-message counts restart from it on every
evaluation; the stored count does not track the total number of messages
emitted. -/
theorem eval_nodes_message_counts :
    (∀ (testEval : AlertTest → Node → Option Bool) (g : List Node) p rest,
      evalNodes testEval g (p :: rest) =
        (evalAlert testEval (lookupNodesFromKey g p.2.Select) p.2).2 ++
          evalNodes testEval g rest) ∧
    (∀ (testEval : AlertTest → Node → Option Bool) (nodes : List Node)
        (al : AlertTest),
      (evalAlert testEval nodes al).1.Count =
        al.Count + ((evalAlert testEval nodes al).2.length : Int) ∧
      ∀ (j : Nat) (h : j < (evalAlert testEval nodes al).2.length),
        ((evalAlert testEval nodes al).2.get ⟨j, h⟩).Count =
            al.Count + (j : Int) + 1 ∧
          ((evalAlert testEval nodes al).2.get ⟨j, h⟩).UUID = al.UUID ∧
          ((evalAlert testEval nodes al).2.get ⟨j, h⟩).Reason = al.Action) := by
  refine ⟨fun testEval g p rest => rfl, fun testEval nodes => ?_⟩
  induction nodes with
  | nil =>
    intro al
    refine ⟨by simp [evalAlert], fun j h => absurd h (by simp [evalAlert])⟩
  | cons n ns ih =>
    intro al
    cases htest : testEval al n with
    | none =>
      rw [evalAlert_cons_skip testEval n ns al (.inl htest)]
      exact ih al
    | some b =>
      cases b with
      | false =>
        rw [evalAlert_cons_skip testEval n ns al (.inr htest)]
        exact ih al
      | true =>
        rw [evalAlert_cons_fire testEval n ns al htest]
        obtain ⟨ih1, ih2⟩ := ih { al with Count := al.Count + 1 }
        constructor
        · show (evalAlert testEval ns { al with Count := al.Count + 1 }).1.Count = _
          rw [ih1]
          simp only [List.length_cons]
          push_cast
          ring
        · intro j h
          cases j with
          | zero =>
            exact ⟨by simp, by simp, by simp⟩
          | succ k =>
            have hk : k < (evalAlert testEval ns
                { al with Count := al.Count + 1 }).2.length := by
              simpa using h
            obtain ⟨hc, hu, hr⟩ := ih2 k hk
            refine ⟨?_, ?_, ?_⟩
            · show ((evalAlert testEval ns
                  { al with Count := al.Count + 1 }).2.get ⟨k, hk⟩).Count = _
              rw [hc]
              push_cast
              ring
            · exact hu
            · exact hr

/-- Witness for the amended C1 at the concrete S3 inputs. -/
theorem eval_nodes_message_counts_witness :
    (0 : Nat) < (evalAlert testTypeIsHost [hostNode1, hostNode2] hostRule).2.length ∧
    ((evalAlert testTypeIsHost [hostNode1, hostNode2] hostRule).2.get
        ⟨0, by decide⟩).Count = hostRule.Count + (0 : Int) + 1 := by
  refine ⟨by decide, ?_⟩
  exact ((eval_nodes_message_counts.2 testTypeIsHost [hostNode1, hostNode2]
    hostRule).2 0 (by decide)).1


/-- Witness for C9 at a concrete identifier. -/
theorem uuid_marshal_roundtrip_witness :
    ValidUUID sampleUUID ∧
      uuidUnmarshalJSON (uuidMarshalJSON sampleUUID) = some sampleUUID := by
  refine ⟨by decide, ?_⟩
  exact uuid_marshal_roundtrip sampleUUID (by decide)


/-!
## The OVS sFlow probe handler (`flow/probes/ovssflow.go`)

The handler drives the OVSDB client with `select`/`insert`/`update`
operations on the `sFlow` and `Bridge` tables and allocates one sFlow
agent per bridge uuid.  The switch's `sFlow` table is embedded as the list
of rows its `select` returns; the operations the handler executes against
the switch are returned as data (`OvsOp`).  Transport failures of the
OVSDB RPC are external I/O outside the model: `Exec` is taken to deliver
the rows and accept the operations.
-/

/-- Go `strings.Replace(s, "-", "_", -1)`: every dash becomes an
underscore (for a single-character pattern this is a character map). -/
def dashToUnderscore (s : String) : String :=
  ⟨s.data.map (fun c => if c = '-' then '_' else c)⟩

/-- `probeID` (ovssflow.go lines 62-64): the deterministic probe id
`"SkydiveSFlowProbe_" + strings.Replace(uuid, "-", "_", -1)`. -/
def probeID (i : String) : String :=
  "SkydiveSFlowProbe_" ++ dashToUnderscore i

/-- The columns of one `sFlow`-table row that the handler writes on insert
and reads back from `select`. -/
structure SFlowRowFields where
  agent : String
  targets : String
  header : Nat
  sampling : Nat
  polling : Nat
  externalIds : List (String × String)
deriving DecidableEq

/-- One row of the switch's `sFlow` table as a `select` returns it: its
`_uuid` plus the columns. -/
structure SFlowRow where
  rowUUID : String
  fields : SFlowRowFields
deriving DecidableEq

/-- The `sflow` column value written on a `Bridge` row: a uuid reference
(`libovsdb.UUID{...}`, possibly a named-uuid of an insert in the same
transaction) or the empty set (`libovsdb.OvsSet{}`). -/
inductive SflowColumn where
  | ref (uuid : String)
  | emptySet
deriving DecidableEq

/-- An OVSDB write operation issued by the handler, as data. -/
inductive OvsOp where
  | insertSFlow (fields : SFlowRowFields) (uuidName : String)
  | updateBridgeSflow (bridgeUUID : String) (value : SflowColumn)
deriving DecidableEq

/-- `OvsSFlowProbe` (ovssflow.go lines 45-53). -/
structure OvsSFlowProbe where
  ID : String
  Interface : String
  Target : String
  HeaderSize : Nat
  Sampling : Nat
  Polling : Nat
  ProbeGraphPath : String
deriving DecidableEq

/-- `newInsertSFlowProbeOP` (ovssflow.go lines 71-95): the insert of a new
`sFlow` row carrying the probe's columns, the probe id under
`external_ids["probe-id"]`, and the probe id as the transaction's named
uuid.  (`libovsdb.NewOvsMap` on a plain string map cannot fail.) -/
def newInsertSFlowProbeOP (probe : OvsSFlowProbe) : OvsOp :=
  .insertSFlow
    ⟨probe.Interface, probe.Target, probe.HeaderSize, probe.Sampling,
      probe.Polling, [("probe-id", probe.ID)]⟩
    probe.ID

/-- `compareProbeID` (ovssflow.go lines 97-124): does the row's
`external_ids` map carry `probe-id = id`? -/
def compareProbeID (row : SFlowRow) (id : String) : Bool :=
  match row.fields.externalIds.find? (fun p => p.1 == "probe-id") with
  | some p => p.2 == id
  | none => false

/-- `retrieveSFlowProbeUUID` (ovssflow.go lines 126-153): `select` every
`sFlow` row and return the `_uuid` of the first row tagged with the probe
id, or `""` when none is. -/
def retrieveSFlowProbeUUID (rows : List SFlowRow) (id : String) : String :=
  match rows.find? (fun r => compareProbeID r id) with
  | some r => r.rowUUID
  | none => ""

/-- `registerSFlowProbeOnBridge` (ovssflow.go lines 155-196): reuse the
row already tagged with the probe id when one exists, otherwise insert a
new one; in both cases update the bridge row's `sflow` column to reference
it (the named uuid `probe.ID` in the insert case). -/
def registerSFlowProbeOnBridge (rows : List SFlowRow) (probe : OvsSFlowProbe)
    (bridgeUUID : String) : List OvsOp :=
  let probeUUID := retrieveSFlowProbeUUID rows (probeID bridgeUUID)
  if probeUUID ≠ "" then
    [.updateBridgeSflow bridgeUUID (.ref probeUUID)]
  else
    [newInsertSFlowProbeOP probe, .updateBridgeSflow bridgeUUID (.ref probe.ID)]

/-- `UnregisterSFlowProbeFromBridge` (ovssflow.go lines 198-226): when a
row tagged with the bridge's probe id exists, set the bridge's `sflow`
column to the empty set; otherwise do nothing. -/
def UnregisterSFlowProbeFromBridge (rows : List SFlowRow) (bridgeUUID : String) :
    List OvsOp :=
  let probeUUID := retrieveSFlowProbeUUID rows (probeID bridgeUUID)
  if probeUUID = "" then []
  else [.updateBridgeSflow bridgeUUID .emptySet]

/-- The probe handler's mutable collaborators for the registration claims:
the allocator state and the rows of the switch's `sFlow` table. -/
structure HandlerState where
  allocator : SFlowAgentAllocator
  sflowRows : List SFlowRow
deriving DecidableEq

/-- Result of a Go method that may return a value, return an error, or
panic (a failed type assertion). -/
inductive GoResult (α : Type) where
  | ok (val : α)
  | err (msg : String)
  | panicked
deriving DecidableEq

/-- `RegisterProbeOnBridge` (ovssflow.go lines 228-250): build the probe
(`Interface: "lo"`, header 256, sampling 1, polling 0, the marshalled
graph path), allocate — or find — the agent for the bridge uuid (an
`AgentAlreadyAllocated` sentinel is not an error), point the probe's
target at the agent and install it on the bridge.  `addr`, `lo`, `hi` are
the configuration values `Alloc` reads. -/
def RegisterProbeOnBridge (h : HandlerState) (bridgeUUID path : String)
    (addr : String) (lo hi : Nat) : Except String (HandlerState × List OvsOp) :=
  let probe : OvsSFlowProbe :=
    { ID := probeID bridgeUUID, Interface := "lo", Target := "",
      HeaderSize := 256, Sampling := 1, Polling := 0, ProbeGraphPath := path }
  match h.allocator.Alloc bridgeUUID addr lo hi with
  | (.portExhausted, _) => .error "sflow port exhausted"
  | (.ok agent, alloc2) =>
    .ok (⟨alloc2, h.sflowRows⟩,
      registerSFlowProbeOnBridge h.sflowRows
        { probe with Target := agent.GetTarget } bridgeUUID)
  | (.alreadyAllocated agent, alloc2) =>
    .ok (⟨alloc2, h.sflowRows⟩,
      registerSFlowProbeOnBridge h.sflowRows
        { probe with Target := agent.GetTarget } bridgeUUID)

/-- `isOvsBridge` (ovssflow.go lines 252-254).  Go evaluates
`n.Metadata()["UUID"] != ""` on the interface value — an absent key yields
the nil interface, which differs from the empty string — and
`n.Metadata()["Type"] == "ovsbridge"`. -/
def isOvsBridge (n : Node) : Bool :=
  !(n.metaLookup "UUID" == some (.str "")) &&
    (n.metaLookup "Type" == some (.str "ovsbridge"))

/-!
### The graph path query

`RegisterProbe` asks the graph for
`LookupShortestPath(n, Metadata{"Type": "host"}, topology.IsOwnershipEdge)`.
Both the query and the edge predicate live in source files that are absent
from the sources at hand, so they are modelled from the spec (§4.1, §3).
-/

/-- An edge of the topology graph with its `RelationType` metadata
(§3: edges carry a `RelationType` value such as `ownership`). -/
structure GEdge where
  a : String
  b : String
  relationType : String
deriving DecidableEq

/-- The topology graph as the path query needs it. -/
structure GGraph where
  nodes : List Node
  edges : List GEdge
deriving DecidableEq

/-- Modelled from the spec: `topology.IsOwnershipEdge` — §3 names the
`ownership` relation type carried by edge metadata. -/
def IsOwnershipEdge (e : GEdge) : Bool :=
  e.relationType == "ownership"

/-- `u` and `v` are joined by some edge admitted by `pred` (edges are
traversable in either direction; the spec does not orient the BFS). -/
def adjacentB (edges : List GEdge) (pred : GEdge → Bool) (u v : String) : Bool :=
  edges.any (fun e => pred e && ((e.a == u && e.b == v) || (e.b == u && e.a == v)))

/-- Does the node with identifier `id` carry `key = val` in its
metadata? -/
def nodeMatches (g : GGraph) (id : String) (key : String) (val : MetaValue) : Bool :=
  match g.nodes.find? (fun n => n.ID == id) with
  | some n => n.metaLookup key == some val
  | none => false

/-- The search state: a map from reached node to its path back to the
start, stored reversed (the node first, the start last). -/
abbrev PathMap := List (String × List String)

/-- Is `x` a key of the map? -/
def keyMem (m : PathMap) (x : String) : Bool :=
  (m.find? (fun p => p.1 == x)).isSome

/-- Extend the map across one admitted edge endpoint pair: if `x` has been
reached and `y` not yet, reach `y` through `x`. -/
def bfsAddEdge (x y : String) (m : PathMap) : PathMap :=
  match m.find? (fun p => p.1 == x), m.find? (fun p => p.1 == y) with
  | some px, none => m ++ [(y, y :: px.2)]
  | _, _ => m

/-- One relaxation round: every admitted edge is tried in both
directions. -/
def bfsExtend (edges : List GEdge) (pred : GEdge → Bool) (m : PathMap) : PathMap :=
  edges.foldl
    (fun acc e =>
      if pred e then bfsAddEdge e.b e.a (bfsAddEdge e.a e.b acc) else acc)
    m

/-- Saturate the map: repeat rounds until a round adds nothing (the map
only ever grows, so equal lengths mean a fixed point) or the fuel runs
out; with fuel at least the number of possible keys the fixed point is
always reached. -/
def bfsSat (edges : List GEdge) (pred : GEdge → Bool) :
    Nat → PathMap → PathMap
  | 0, m => m
  | fuel + 1, m =>
    let m2 := bfsExtend edges pred m
    if m2.length = m.length then m else bfsSat edges pred fuel m2

/-- All identifiers the search can ever reach: the start and every edge
endpoint.  Its length bounds the saturation fuel. -/
def reachPool (edges : List GEdge) (start : String) : List String :=
  start :: edges.foldr (fun e acc => e.a :: (e.b :: acc)) []

/-- Modelled from the spec: `Graph.LookupShortestPath(from, target, pred)`
(§4.1) — the method lives in a source file that is absent.  "Performs an
unweighted BFS restricted to edges satisfying `edgePredicate`, returning
the first path whose endpoint matches `targetPredicate`, or empty if
none": the path map is saturated breadth-first from the start node and the
path of the first reached node matching the target metadata is returned
(reversed into start-to-target order), the empty list when no matching
node is reachable.  The claims depend on which nodes yield a path and on
the returned path's validity, not on the tie-break among equal-length
candidates, which this model leaves to the map order. -/
def lookupShortestPath (g : GGraph) (start : String) (key : String)
    (val : MetaValue) (pred : GEdge → Bool) : List String :=
  match (bfsSat g.edges pred (reachPool g.edges start).length
      [(start, [start])]).find? (fun p => nodeMatches g p.1 key val) with
  | some p => p.2.reverse
  | none => []

/-- Modelled from the spec: `topology.NodePath.Marshal` — §3 calls it "a
stable string" of the node sequence and the glossary renders it
`host/br0`, the host first; the node identifiers joined by `/` after
reversing the start-to-host path. -/
def nodePathMarshal (p : List String) : String :=
  "/".intercalate p.reverse

/-- `RegisterProbe` (ovssflow.go lines 256-271): nothing to do on a
non-bridge node; on an OVS bridge, resolve the graph path from the bridge
to its host along ownership edges, fail when there is none, and otherwise
install the probe on the bridge through `RegisterProbeOnBridge` (the
`n.Metadata()["UUID"].(string)` type assertion panics unless the metadata
value is a string). -/
def RegisterProbe (h : HandlerState) (g : GGraph) (n : Node)
    (addr : String) (lo hi : Nat) : GoResult (HandlerState × List OvsOp) :=
  if isOvsBridge n then
    let nodes := lookupShortestPath g n.ID "Type" (.str "host") IsOwnershipEdge
    if nodes.isEmpty then .err "Failed to determine probePath"
    else
      match n.metaLookup "UUID" with
      | some (.str u) =>
        match RegisterProbeOnBridge h u (nodePathMarshal nodes) addr lo hi with
        | .ok r => .ok r
        | .error e => .err e
      | _ => .panicked
  else .ok (h, [])

/-- `unregisterProbe` (ovssflow.go lines 273-279). -/
def unregisterProbe (h : HandlerState) (bridgeUUID : String) : List OvsOp :=
  UnregisterSFlowProbeFromBridge h.sflowRows bridgeUUID

/-- `UnregisterProbe` (ovssflow.go lines 281-289): nothing to do on a
non-bridge node; on an OVS bridge, clear the bridge's `sflow` reference.
No other state is touched — in particular the allocator is not asked to
release the bridge's agent (only the handler's `Stop`, line 295, calls
`ReleaseAll`). -/
def UnregisterProbe (h : HandlerState) (n : Node) :
    GoResult (HandlerState × List OvsOp) :=
  if isOvsBridge n then
    match n.metaLookup "UUID" with
    | some (.str u) => .ok (h, unregisterProbe h u)
    | _ => .panicked
  else .ok (h, [])

/-- `OvsSFlowProbesHandler.Stop` (ovssflow.go lines 294-296). -/
def HandlerStop (h : HandlerState) : HandlerState :=
  ⟨h.allocator.ReleaseAll, h.sflowRows⟩


/-- A tagged `sFlow` row for the bridge uuid `abc-1`. -/
def c5row : SFlowRow :=
  ⟨"11111111-2222-3333-4444-555555555555",
    ⟨"lo", "127.0.0.1:6345", 256, 1, 0, [("probe-id", probeID "abc-1")]⟩⟩

/-- An allocator holding the agent allocated for bridge uuid `abc-1`. -/
def c5alloc : SFlowAgentAllocator := ⟨[(6345, ⟨"abc-1", "127.0.0.1", 6345⟩)]⟩

/-- Handler state: that allocator, and the switch holding the tagged row. -/
def c5state : HandlerState := ⟨c5alloc, [c5row]⟩

/-- The OVS-bridge node with uuid `abc-1`. -/
def c5node : Node := ⟨"br1", [("Type", .str "ovsbridge"), ("UUID", .str "abc-1")]⟩

/-- Counterexample to C5 at a concrete bridge: `UnregisterProbe` does
clear the bridge's `sflow` reference, but it does NOT release the agent
allocated for the bridge's uuid — the handler state it returns is exactly
the input state, whose allocator still holds the agent for `abc-1`; an
actual `Release` would have emptied the map. -/
theorem unregister_does_not_release_agent :
    UnregisterProbe c5state c5node =
      .ok (c5state, [.updateBridgeSflow "abc-1" .emptySet]) ∧
    c5state.allocator.allocated.find? (fun p => p.2.UUID == "abc-1") =
      some (6345, ⟨"abc-1", "127.0.0.1", 6345⟩) ∧
    (c5state.allocator.Release "abc-1").allocated = [] := by
  exact ⟨by decide, by decide, by decide⟩

/-- C5 as amended: for every OVS-bridge node (with string uuid `u`),
`UnregisterProbe` returns the handler state unchanged — the allocator
keeps the bridge's agent; only the handler's `Stop` releases agents —
together with the switch update clearing the bridge's `sflow` column,
which is issued exactly when a row tagged with the bridge's probe id
exists and is omitted otherwise. -/
theorem unregister_probe_clears_sflow_ref (h : HandlerState) (n : Node)
    (u : String) (hbridge : isOvsBridge n = true)
    (huuid : n.metaLookup "UUID" = some (.str u)) :
    UnregisterProbe h n =
      .ok (h, UnregisterSFlowProbeFromBridge h.sflowRows u) ∧
    (retrieveSFlowProbeUUID h.sflowRows (probeID u) ≠ "" →
      UnregisterSFlowProbeFromBridge h.sflowRows u =
        [.updateBridgeSflow u .emptySet]) ∧
    (retrieveSFlowProbeUUID h.sflowRows (probeID u) = "" →
      UnregisterSFlowProbeFromBridge h.sflowRows u = []) := by
  refine ⟨?_, ?_, ?_⟩
  · simp [UnregisterProbe, hbridge, huuid, unregisterProbe]
  · intro hne
    simp [UnregisterSFlowProbeFromBridge, hne]
  · intro heq
    simp [UnregisterSFlowProbeFromBridge, heq]

/-- Witness for the amended C5 at the concrete bridge state. -/
theorem unregister_probe_clears_sflow_ref_witness :
    (isOvsBridge c5node = true ∧
      c5node.metaLookup "UUID" = some (.str "abc-1")) ∧
    UnregisterProbe c5state c5node =
      .ok (c5state, UnregisterSFlowProbeFromBridge c5state.sflowRows "abc-1") := by
  refine ⟨⟨by decide, by decide⟩, ?_⟩
  exact (unregister_probe_clears_sflow_ref c5state c5node "abc-1"
    (by decide) (by decide)).1

/-- C10: for every node that is not an OVS bridge — its `Type` metadata is
not the string "ovsbridge", or its `UUID` metadata is the empty string —
`RegisterProbe` and `UnregisterProbe` return nil at once: no agent is
allocated or released, no switch operation is issued, and the handler
state comes back unchanged. -/
theorem non_bridge_register_unregister_noop (h : HandlerState) (g : GGraph)
    (n : Node) (addr : String) (lo hi : Nat)
    (hn : ¬ n.metaLookup "Type" = some (.str "ovsbridge") ∨
      n.metaLookup "UUID" = some (.str "")) :
    RegisterProbe h g n addr lo hi = .ok (h, []) ∧
    UnregisterProbe h n = .ok (h, []) := by
  have hb : isOvsBridge n = false := by
    rcases hn with h1 | h1
    · simp [isOvsBridge, beq_iff_eq, h1]
    · simp [isOvsBridge, h1]
  constructor
  · simp [RegisterProbe, hb]
  · simp [UnregisterProbe, hb]

/-- Witness for C10 at a concrete host node. -/
theorem non_bridge_register_unregister_noop_witness :
    (¬ (⟨"h1", [("Type", MetaValue.str "host")]⟩ : Node).metaLookup "Type" =
        some (.str "ovsbridge") ∨
      (⟨"h1", [("Type", MetaValue.str "host")]⟩ : Node).metaLookup "UUID" =
        some (.str "")) ∧
    RegisterProbe ⟨⟨[]⟩, []⟩ ⟨[], []⟩ ⟨"h1", [("Type", MetaValue.str "host")]⟩
      "127.0.0.1" 6345 6355 = .ok (⟨⟨[]⟩, []⟩, []) ∧
    UnregisterProbe ⟨⟨[]⟩, []⟩ ⟨"h1", [("Type", MetaValue.str "host")]⟩ =
      .ok (⟨⟨[]⟩, []⟩, []) := by
  refine ⟨by decide, ?_, ?_⟩
  · exact (non_bridge_register_unregister_noop ⟨⟨[]⟩, []⟩ ⟨[], []⟩
      ⟨"h1", [("Type", MetaValue.str "host")]⟩ "127.0.0.1" 6345 6355
      (by decide)).1
  · exact (non_bridge_register_unregister_noop ⟨⟨[]⟩, []⟩ ⟨[], []⟩
      ⟨"h1", [("Type", MetaValue.str "host")]⟩ "127.0.0.1" 6345 6355
      (by decide)).2


/-!
### Correctness of the modelled path query

`RegisterProbe` must fail exactly on the disconnected bridges, so the
modelled search is related to an inductive reachability predicate:
`GoodPath edges pred start y p` says `p` (stored target-first, start-last)
walks from `start` to `y` along edges admitted by `pred`.
-/

theorem find?_append_some {α : Type} (p : α → Bool) (l1 l2 : List α) (a : α)
    (h : l1.find? p = some a) : (l1 ++ l2).find? p = some a := by
  induction l1 with
  | nil => exact absurd h (by simp)
  | cons x xs ih =>
    by_cases hpx : p x = true
    · rw [List.find?_cons_of_pos _ hpx] at h
      rw [List.cons_append, List.find?_cons_of_pos _ hpx]
      exact h
    · rw [List.find?_cons_of_neg _ hpx] at h
      rw [List.cons_append, List.find?_cons_of_neg _ hpx]
      exact ih h

theorem keyMem_append (m s : PathMap) (x : String) (h : keyMem m x = true) :
    keyMem (m ++ s) x = true := by
  rw [keyMem] at h ⊢
  cases hf : m.find? (fun p => p.1 == x) with
  | none => rw [hf] at h; simp at h
  | some px => rw [find?_append_some _ _ _ _ hf]; rfl

/-- A walk from `start` to its endpoint, stored endpoint-first. -/
inductive GoodPath (edges : List GEdge) (pred : GEdge → Bool) (start : String) :
    String → List String → Prop where
  | base : GoodPath edges pred start start [start]
  | step {u v : String} {p : List String} :
      GoodPath edges pred start u p → adjacentB edges pred u v = true →
      GoodPath edges pred start v (v :: p)

theorem GoodPath.nonempty {edges : List GEdge} {pred : GEdge → Bool}
    {start y : String} {p : List String}
    (h : GoodPath edges pred start y p) : p ≠ [] := by
  cases h <;> simp

theorem GoodPath.head {edges : List GEdge} {pred : GEdge → Bool}
    {start y : String} {p : List String}
    (h : GoodPath edges pred start y p) : p.head? = some y := by
  cases h <;> rfl

/-- Soundness invariant of the search state: every entry holds a valid
walk from the start to its key. -/
def PathMapOK (edges : List GEdge) (pred : GEdge → Bool) (start : String)
    (m : PathMap) : Prop :=
  ∀ q ∈ m, GoodPath edges pred start q.1 q.2

theorem bfsAddEdge_ok (edges : List GEdge) (pred : GEdge → Bool)
    (start x y : String) (m : PathMap)
    (hadj : adjacentB edges pred x y = true)
    (hm : PathMapOK edges pred start m) :
    PathMapOK edges pred start (bfsAddEdge x y m) := by
  rw [bfsAddEdge]
  cases hfx : m.find? (fun p => p.1 == x) with
  | none => exact hm
  | some px =>
    cases hfy : m.find? (fun p => p.1 == y) with
    | some py => exact hm
    | none =>
      intro q hq
      rcases List.mem_append.mp hq with hin | hnew
      · exact hm q hin
      · rcases List.mem_singleton.mp hnew with rfl
        have hpxm : px ∈ m := List.mem_of_find?_eq_some hfx
        have hpx1 : px.1 = x := by
          have := List.find?_some hfx
          simpa using this
        have hgood : GoodPath edges pred start x px.2 := hpx1 ▸ hm px hpxm
        exact GoodPath.step hgood hadj

/-- `bfsAddEdge` only ever appends. -/
theorem bfsAddEdge_append (x y : String) (m : PathMap) :
    ∃ s, bfsAddEdge x y m = m ++ s := by
  rw [bfsAddEdge]
  cases hfx : m.find? (fun p => p.1 == x) with
  | none => exact ⟨[], by simp⟩
  | some px =>
    cases hfy : m.find? (fun p => p.1 == y) with
    | some py => exact ⟨[], by simp⟩
    | none => exact ⟨[(y, y :: px.2)], rfl⟩

/-- One edge step of `bfsExtend` only ever appends. -/
theorem bfsExtendStep_append (pred : GEdge → Bool) (e : GEdge) (m : PathMap) :
    ∃ s, (if pred e then bfsAddEdge e.b e.a (bfsAddEdge e.a e.b m) else m) =
      m ++ s := by
  by_cases hp : pred e = true
  · rw [if_pos hp]
    obtain ⟨s1, hs1⟩ := bfsAddEdge_append e.a e.b m
    obtain ⟨s2, hs2⟩ := bfsAddEdge_append e.b e.a (bfsAddEdge e.a e.b m)
    exact ⟨s1 ++ s2, by rw [hs2, hs1, List.append_assoc]⟩
  · rw [if_neg hp]
    exact ⟨[], by simp⟩

/-- The fold underlying `bfsExtend`, from any accumulator, only ever
appends. -/
theorem bfsFold_append (pred : GEdge → Bool) (edges : List GEdge) :
    ∀ m : PathMap,
      ∃ s, edges.foldl
        (fun acc e =>
          if pred e then bfsAddEdge e.b e.a (bfsAddEdge e.a e.b acc) else acc)
        m = m ++ s := by
  induction edges with
  | nil => exact fun m => ⟨[], by simp⟩
  | cons e es ih =>
    intro m
    rw [List.foldl_cons]
    obtain ⟨s1, hs1⟩ := bfsExtendStep_append pred e m
    obtain ⟨s2, hs2⟩ := ih (m ++ s1)
    rw [hs1, hs2]
    exact ⟨s1 ++ s2, by rw [List.append_assoc]⟩

theorem bfsExtend_append (edges : List GEdge) (pred : GEdge → Bool)
    (m : PathMap) : ∃ s, bfsExtend edges pred m = m ++ s :=
  bfsFold_append pred edges m

theorem bfsExtend_length (edges : List GEdge) (pred : GEdge → Bool)
    (m : PathMap) : m.length ≤ (bfsExtend edges pred m).length := by
  obtain ⟨s, hs⟩ := bfsExtend_append edges pred m
  rw [hs]
  simp

/-- A round that does not change the length is the identity. -/
theorem bfsExtend_fix_of_length (edges : List GEdge) (pred : GEdge → Bool)
    (m : PathMap) (h : (bfsExtend edges pred m).length = m.length) :
    bfsExtend edges pred m = m := by
  obtain ⟨s, hs⟩ := bfsExtend_append edges pred m
  rw [hs] at h ⊢
  have : s = [] := by
    rw [List.length_append] at h
    exact List.length_eq_zero.mp (by omega)
  simp [this]


theorem bfsFold_ok (edges : List GEdge) (pred : GEdge → Bool) (start : String) :
    ∀ (l : List GEdge), (∀ e ∈ l, e ∈ edges) →
      ∀ m : PathMap, PathMapOK edges pred start m →
        PathMapOK edges pred start
          (l.foldl
            (fun acc e =>
              if pred e then bfsAddEdge e.b e.a (bfsAddEdge e.a e.b acc) else acc)
            m) := by
  intro l
  induction l with
  | nil => exact fun _ m hm => hm
  | cons e es ih =>
    intro hsub m hm
    rw [List.foldl_cons]
    apply ih (fun f hf => hsub f (List.mem_cons_of_mem e hf))
    by_cases hp : pred e = true
    · rw [if_pos hp]
      have he : e ∈ edges := hsub e (List.mem_cons_self e es)
      have hab : adjacentB edges pred e.a e.b = true := by
        rw [adjacentB, List.any_eq_true]
        exact ⟨e, he, by simp [hp]⟩
      have hba : adjacentB edges pred e.b e.a = true := by
        rw [adjacentB, List.any_eq_true]
        exact ⟨e, he, by simp [hp]⟩
      exact bfsAddEdge_ok edges pred start e.b e.a _ hba
        (bfsAddEdge_ok edges pred start e.a e.b m hab hm)
    · rw [if_neg hp]
      exact hm

theorem bfsExtend_ok (edges : List GEdge) (pred : GEdge → Bool) (start : String)
    (m : PathMap) (hm : PathMapOK edges pred start m) :
    PathMapOK edges pred start (bfsExtend edges pred m) :=
  bfsFold_ok edges pred start edges (fun _ he => he) m hm

theorem bfsSat_ok (edges : List GEdge) (pred : GEdge → Bool) (start : String) :
    ∀ (fuel : Nat) (m : PathMap), PathMapOK edges pred start m →
      PathMapOK edges pred start (bfsSat edges pred fuel m) := by
  intro fuel
  induction fuel with
  | zero => exact fun m hm => hm
  | succ n ih =>
    intro m hm
    rw [bfsSat]
    by_cases hl : (bfsExtend edges pred m).length = m.length
    · rw [if_pos hl]; exact hm
    · rw [if_neg hl]
      exact ih _ (bfsExtend_ok edges pred start m hm)

theorem bfsSat_append (edges : List GEdge) (pred : GEdge → Bool) :
    ∀ (fuel : Nat) (m : PathMap), ∃ s, bfsSat edges pred fuel m = m ++ s := by
  intro fuel
  induction fuel with
  | zero => exact fun m => ⟨[], by simp [bfsSat]⟩
  | succ n ih =>
    intro m
    rw [bfsSat]
    by_cases hl : (bfsExtend edges pred m).length = m.length
    · rw [if_pos hl]; exact ⟨[], by simp⟩
    · rw [if_neg hl]
      obtain ⟨s1, hs1⟩ := bfsExtend_append edges pred m
      obtain ⟨s2, hs2⟩ := ih (bfsExtend edges pred m)
      rw [hs2, hs1]
      exact ⟨s1 ++ s2, by rw [List.append_assoc]⟩

/-- The search keys are pairwise distinct. -/
def KeysNodup (m : PathMap) : Prop := (m.map Prod.fst).Nodup

/-- Every search key comes from `pool`. -/
def KeysIn (pool : List String) (m : PathMap) : Prop := ∀ q ∈ m, q.1 ∈ pool

theorem key_not_mem_of_find?_none (m : PathMap) (y : String)
    (h : m.find? (fun p => p.1 == y) = none) : y ∉ m.map Prod.fst := by
  intro hmem
  obtain ⟨q, hq, hq1⟩ := List.mem_map.mp hmem
  have := List.find?_eq_none.mp h q hq
  simp [hq1] at this

theorem bfsAddEdge_keys (pool : List String) (x y : String) (m : PathMap)
    (hy : y ∈ pool) (hn : KeysNodup m) (hi : KeysIn pool m) :
    KeysNodup (bfsAddEdge x y m) ∧ KeysIn pool (bfsAddEdge x y m) := by
  rw [bfsAddEdge]
  cases hfx : m.find? (fun p => p.1 == x) with
  | none => exact ⟨hn, hi⟩
  | some px =>
    cases hfy : m.find? (fun p => p.1 == y) with
    | some py => exact ⟨hn, hi⟩
    | none =>
      constructor
      · rw [KeysNodup, List.map_append, List.nodup_append]
        refine ⟨hn, by simp, ?_⟩
        simp only [List.map_cons, List.map_nil]
        intro z hz hz'
        exact key_not_mem_of_find?_none m y hfy
          (List.mem_singleton.mp hz' ▸ hz)
      · intro q hq
        rcases List.mem_append.mp hq with hin | hnew
        · exact hi q hin
        · rcases List.mem_singleton.mp hnew with rfl
          exact hy

theorem bfsFold_keys (pred : GEdge → Bool) (pool : List String) :
    ∀ (l : List GEdge), (∀ e ∈ l, e.a ∈ pool ∧ e.b ∈ pool) →
      ∀ m : PathMap, KeysNodup m → KeysIn pool m →
        KeysNodup (l.foldl
            (fun acc e =>
              if pred e then bfsAddEdge e.b e.a (bfsAddEdge e.a e.b acc) else acc)
            m) ∧
          KeysIn pool (l.foldl
            (fun acc e =>
              if pred e then bfsAddEdge e.b e.a (bfsAddEdge e.a e.b acc) else acc)
            m) := by
  intro l
  induction l with
  | nil => exact fun _ m hn hi => ⟨hn, hi⟩
  | cons e es ih =>
    intro hsub m hn hi
    rw [List.foldl_cons]
    have hstep : KeysNodup
        (if pred e then bfsAddEdge e.b e.a (bfsAddEdge e.a e.b m) else m) ∧
        KeysIn pool
          (if pred e then bfsAddEdge e.b e.a (bfsAddEdge e.a e.b m) else m) := by
      by_cases hp : pred e = true
      · rw [if_pos hp]
        obtain ⟨ha, hb⟩ := hsub e (List.mem_cons_self e es)
        obtain ⟨hn1, hi1⟩ := bfsAddEdge_keys pool e.a e.b m hb hn hi
        exact bfsAddEdge_keys pool e.b e.a _ ha hn1 hi1
      · rw [if_neg hp]; exact ⟨hn, hi⟩
    exact ih (fun f hf => hsub f (List.mem_cons_of_mem e hf)) _ hstep.1 hstep.2

theorem bfsExtend_keys (edges : List GEdge) (pred : GEdge → Bool)
    (pool : List String) (hpool : ∀ e ∈ edges, e.a ∈ pool ∧ e.b ∈ pool)
    (m : PathMap) (hn : KeysNodup m) (hi : KeysIn pool m) :
    KeysNodup (bfsExtend edges pred m) ∧ KeysIn pool (bfsExtend edges pred m) :=
  bfsFold_keys pred pool edges hpool m hn hi

theorem length_le_pool (pool : List String) (m : PathMap)
    (hn : KeysNodup m) (hi : KeysIn pool m) : m.length ≤ pool.length := by
  have hsub : m.map Prod.fst ⊆ pool := by
    intro x hx
    obtain ⟨q, hq, rfl⟩ := List.mem_map.mp hx
    exact hi q hq
  have hsp := List.Nodup.subperm hn hsub
  have := hsp.length_le
  simpa using this

/-- With fuel at least the number of possible keys, saturation reaches a
fixed point of `bfsExtend`. -/
theorem bfsSat_fix (edges : List GEdge) (pred : GEdge → Bool)
    (pool : List String) (hpool : ∀ e ∈ edges, e.a ∈ pool ∧ e.b ∈ pool) :
    ∀ (fuel : Nat) (m : PathMap), KeysNodup m → KeysIn pool m →
      pool.length + 1 ≤ fuel + m.length →
      bfsExtend edges pred (bfsSat edges pred fuel m) =
        bfsSat edges pred fuel m := by
  intro fuel
  induction fuel with
  | zero =>
    intro m hn hi hfuel
    have := length_le_pool pool m hn hi
    omega
  | succ n ih =>
    intro m hn hi hfuel
    rw [bfsSat]
    by_cases hl : (bfsExtend edges pred m).length = m.length
    · rw [if_pos hl]
      exact bfsExtend_fix_of_length edges pred m hl
    · rw [if_neg hl]
      obtain ⟨hn2, hi2⟩ := bfsExtend_keys edges pred pool hpool m hn hi
      have hgrow : m.length + 1 ≤ (bfsExtend edges pred m).length := by
        have := bfsExtend_length edges pred m
        omega
      exact ih _ hn2 hi2 (by omega)


theorem bfsAddEdge_length (x y : String) (m : PathMap) :
    m.length ≤ (bfsAddEdge x y m).length := by
  obtain ⟨s, hs⟩ := bfsAddEdge_append x y m
  rw [hs]; simp

theorem bfsAddEdge_adds (x y : String) (m : PathMap)
    (hx : keyMem m x = true) (hy : keyMem m y = false) :
    m.length + 1 ≤ (bfsAddEdge x y m).length := by
  rw [keyMem] at hx hy
  rw [bfsAddEdge]
  cases hfx : m.find? (fun p => p.1 == x) with
  | none => rw [hfx] at hx; simp at hx
  | some px =>
    cases hfy : m.find? (fun p => p.1 == y) with
    | some py => rw [hfy] at hy; simp at hy
    | none => simp

theorem bfsAddEdge_skip (x y : String) (m : PathMap)
    (hx : keyMem m x = false) : bfsAddEdge x y m = m := by
  rw [keyMem] at hx
  rw [bfsAddEdge]
  cases hfx : m.find? (fun p => p.1 == x) with
  | none => rfl
  | some px => rw [hfx] at hx; simp at hx

theorem bfsFold_length (pred : GEdge → Bool) (l : List GEdge) (acc : PathMap) :
    acc.length ≤ (l.foldl
      (fun acc e =>
        if pred e then bfsAddEdge e.b e.a (bfsAddEdge e.a e.b acc) else acc)
      acc).length := by
  obtain ⟨s, hs⟩ := bfsFold_append pred l acc
  rw [hs]; simp

theorem keyMem_false_of_append (m s : PathMap) (y : String)
    (h : keyMem (m ++ s) y = false) : keyMem m y = false := by
  cases hb : keyMem m y with
  | false => rfl
  | true => rw [keyMem_append m s y hb] at h; exact h.symm ▸ rfl

/-- If some admitted edge of `l` joins a reached key `x` to an unreached
`y`, folding `l` over any extension of the map strictly grows it. -/
theorem bfsFold_grows (pred : GEdge → Bool) (x y : String) :
    ∀ (l : List GEdge) (m acc : PathMap), (∃ s, acc = m ++ s) →
      (∃ e ∈ l, pred e = true ∧
        ((x = e.a ∧ y = e.b) ∨ (x = e.b ∧ y = e.a))) →
      keyMem m x = true → keyMem m y = false →
      m.length + 1 ≤ (l.foldl
        (fun acc e =>
          if pred e then bfsAddEdge e.b e.a (bfsAddEdge e.a e.b acc) else acc)
        acc).length := by
  intro l
  induction l with
  | nil =>
    rintro m acc - ⟨e, he, -⟩ - -
    exact absurd he (List.not_mem_nil e)
  | cons f fs ih =>
    rintro m acc ⟨s, rfl⟩ ⟨e, he, hpe, hxy⟩ hx hy
    rw [List.foldl_cons]
    by_cases hyacc : keyMem (m ++ s) y = true
    · have hs : s ≠ [] := by
        rintro rfl
        rw [List.append_nil] at hyacc
        rw [hy] at hyacc
        exact Bool.noConfusion hyacc
      have hlen : m.length + 1 ≤ (m ++ s).length := by
        have : 1 ≤ s.length := by
          cases s with
          | nil => exact absurd rfl hs
          | cons a as => simp
        simp [List.length_append]
        omega
      calc m.length + 1 ≤ (m ++ s).length := hlen
        _ ≤ (if pred f then bfsAddEdge f.b f.a (bfsAddEdge f.a f.b (m ++ s))
              else (m ++ s)).length := by
            obtain ⟨s2, hs2⟩ := bfsExtendStep_append pred f (m ++ s)
            rw [hs2]; simp
        _ ≤ _ := bfsFold_length pred fs _
    · have hyacc2 : keyMem (m ++ s) y = false := by
        cases hb : keyMem (m ++ s) y with
        | false => rfl
        | true => exact absurd hb hyacc
      rcases List.mem_cons.mp he with rfl | hefs
      · rw [if_pos hpe]
        have hxacc : keyMem (m ++ s) x = true := keyMem_append m s x hx
        rcases hxy with ⟨rfl, rfl⟩ | ⟨rfl, rfl⟩
        · have h1 : (m ++ s).length + 1 ≤
              (bfsAddEdge e.a e.b (m ++ s)).length :=
            bfsAddEdge_adds e.a e.b (m ++ s) hxacc hyacc2
          calc m.length + 1 ≤ (m ++ s).length + 1 := by simp
            _ ≤ (bfsAddEdge e.a e.b (m ++ s)).length := h1
            _ ≤ (bfsAddEdge e.b e.a (bfsAddEdge e.a e.b (m ++ s))).length :=
                bfsAddEdge_length _ _ _
            _ ≤ _ := bfsFold_length pred fs _
        · have h0 : bfsAddEdge e.a e.b (m ++ s) = m ++ s :=
            bfsAddEdge_skip e.a e.b (m ++ s) hyacc2
          rw [h0]
          have h1 : (m ++ s).length + 1 ≤
              (bfsAddEdge e.b e.a (m ++ s)).length :=
            bfsAddEdge_adds e.b e.a (m ++ s) hxacc hyacc2
          calc m.length + 1 ≤ (m ++ s).length + 1 := by simp
            _ ≤ (bfsAddEdge e.b e.a (m ++ s)).length := h1
            _ ≤ _ := bfsFold_length pred fs _
      · obtain ⟨s2, hs2⟩ := bfsExtendStep_append pred f (m ++ s)
        rw [hs2]
        exact ih m ((m ++ s) ++ s2) ⟨s ++ s2, by rw [List.append_assoc]⟩
          ⟨e, hefs, hpe, hxy⟩ hx hy

/-- At a fixed point of `bfsExtend`, the reached keys are closed under
every admitted edge. -/
theorem bfsExtend_fix_closed (edges : List GEdge) (pred : GEdge → Bool)
    (m : PathMap) (hfix : bfsExtend edges pred m = m) :
    ∀ e ∈ edges, pred e = true →
      (keyMem m e.a = true → keyMem m e.b = true) ∧
      (keyMem m e.b = true → keyMem m e.a = true) := by
  intro e he hpe
  rw [bfsExtend] at hfix
  constructor
  · intro ha
    by_contra hb
    have hb2 : keyMem m e.b = false := by
      cases h : keyMem m e.b with
      | false => rfl
      | true => exact absurd h hb
    have hg := bfsFold_grows pred e.a e.b edges m m ⟨[], by simp⟩
      ⟨e, he, hpe, Or.inl ⟨rfl, rfl⟩⟩ ha hb2
    rw [hfix] at hg
    omega
  · intro hb
    by_contra ha
    have ha2 : keyMem m e.a = false := by
      cases h : keyMem m e.a with
      | false => rfl
      | true => exact absurd h ha
    have hg := bfsFold_grows pred e.b e.a edges m m ⟨[], by simp⟩
      ⟨e, he, hpe, Or.inr ⟨rfl, rfl⟩⟩ hb ha2
    rw [hfix] at hg
    omega

/-- At a fixed point containing the start, every node reachable along
admitted edges has been reached. -/
theorem fix_complete (edges : List GEdge) (pred : GEdge → Bool)
    (start : String) (m : PathMap)
    (hfix : bfsExtend edges pred m = m)
    (hstart : keyMem m start = true) :
    ∀ (y : String) (p : List String), GoodPath edges pred start y p →
      keyMem m y = true := by
  intro y p hgp
  induction hgp with
  | base => exact hstart
  | step hprev hadj ih =>
    rw [adjacentB, List.any_eq_true] at hadj
    obtain ⟨e, he, hcond⟩ := hadj
    simp only [Bool.and_eq_true, Bool.or_eq_true, beq_iff_eq] at hcond
    obtain ⟨hpe, hor⟩ := hcond
    have hcl := bfsExtend_fix_closed edges pred m hfix e he hpe
    rcases hor with ⟨ha, hb⟩ | ⟨ha, hb⟩
    · rw [← hb]
      exact hcl.1 (by rw [ha]; exact ih)
    · rw [← hb]
      exact hcl.2 (by rw [ha]; exact ih)

theorem mem_endpoints (edges : List GEdge) :
    ∀ e ∈ edges, e.a ∈ edges.foldr (fun e acc => e.a :: (e.b :: acc)) [] ∧
      e.b ∈ edges.foldr (fun e acc => e.a :: (e.b :: acc)) [] := by
  induction edges with
  | nil => intro e he; exact absurd he (List.not_mem_nil e)
  | cons f fs ih =>
    intro e he
    rw [List.foldr_cons]
    rcases List.mem_cons.mp he with rfl | hfs
    · exact ⟨List.mem_cons_self _ _,
        List.mem_cons_of_mem _ (List.mem_cons_self _ _)⟩
    · obtain ⟨h1, h2⟩ := ih e hfs
      exact ⟨List.mem_cons_of_mem _ (List.mem_cons_of_mem _ h1),
        List.mem_cons_of_mem _ (List.mem_cons_of_mem _ h2)⟩

theorem mem_reachPool (edges : List GEdge) (start : String) :
    ∀ e ∈ edges, e.a ∈ reachPool edges start ∧ e.b ∈ reachPool edges start := by
  intro e he
  obtain ⟨h1, h2⟩ := mem_endpoints edges e he
  exact ⟨List.mem_cons_of_mem _ h1, List.mem_cons_of_mem _ h2⟩


/-- The saturated path map underlying `lookupShortestPath`. -/
def satMap (g : GGraph) (start : String) (pred : GEdge → Bool) : PathMap :=
  bfsSat g.edges pred (reachPool g.edges start).length [(start, [start])]

theorem satMap_ok (g : GGraph) (start : String) (pred : GEdge → Bool) :
    PathMapOK g.edges pred start (satMap g start pred) := by
  apply bfsSat_ok
  intro q hq
  rcases List.mem_singleton.mp hq with rfl
  exact GoodPath.base

theorem satMap_fix (g : GGraph) (start : String) (pred : GEdge → Bool) :
    bfsExtend g.edges pred (satMap g start pred) = satMap g start pred := by
  apply bfsSat_fix g.edges pred (reachPool g.edges start)
    (mem_reachPool g.edges start)
  · simp [KeysNodup]
  · intro q hq
    rcases List.mem_singleton.mp hq with rfl
    exact List.mem_cons_self _ _
  · simp

theorem satMap_start (g : GGraph) (start : String) (pred : GEdge → Bool) :
    keyMem (satMap g start pred) start = true := by
  obtain ⟨s, hs⟩ := bfsSat_append g.edges pred
    (reachPool g.edges start).length [(start, [start])]
  rw [satMap, hs]
  apply keyMem_append
  simp [keyMem]

/-- The modelled path query is empty exactly on the unreachable targets,
and a non-empty result is itself a valid admitted-edge walk from the start
to a matching node. -/
theorem lookupShortestPath_spec (g : GGraph) (start key : String)
    (val : MetaValue) (pred : GEdge → Bool) :
    (lookupShortestPath g start key val pred = [] ↔
      ¬ ∃ y p, GoodPath g.edges pred start y p ∧
        nodeMatches g y key val = true) ∧
    (∀ r, lookupShortestPath g start key val pred = r → r ≠ [] →
      ∃ y, nodeMatches g y key val = true ∧
        GoodPath g.edges pred start y r.reverse) := by
  have hlk : lookupShortestPath g start key val pred =
      (match (satMap g start pred).find?
          (fun p => nodeMatches g p.1 key val) with
        | some p => p.2.reverse
        | none => []) := rfl
  cases hf : (satMap g start pred).find? (fun p => nodeMatches g p.1 key val) with
  | some q =>
    have hlk2 : lookupShortestPath g start key val pred = q.2.reverse := by
      rw [hlk, hf]
    have hqm : q ∈ satMap g start pred := List.mem_of_find?_eq_some hf
    have hmatch : nodeMatches g q.1 key val = true := by
      have := List.find?_some hf
      simpa using this
    have hgood : GoodPath g.edges pred start q.1 q.2 :=
      satMap_ok g start pred q hqm
    have hne : q.2 ≠ [] := hgood.nonempty
    constructor
    · constructor
      · intro h0
        rw [hlk2] at h0
        exact absurd (List.reverse_eq_nil_iff.mp h0) hne
      · intro hno
        exact absurd ⟨q.1, q.2, hgood, hmatch⟩ hno
    · intro r hr hrne
      have hrq : r = q.2.reverse := by rw [← hr, hlk2]
      refine ⟨q.1, hmatch, ?_⟩
      rw [hrq, List.reverse_reverse]
      exact hgood
  | none =>
    have hlk2 : lookupShortestPath g start key val pred = [] := by
      rw [hlk, hf]
    constructor
    · constructor
      · intro _
        rintro ⟨y, p, hgp, hmatch⟩
        have hkm : keyMem (satMap g start pred) y = true :=
          fix_complete g.edges pred start (satMap g start pred)
            (satMap_fix g start pred) (satMap_start g start pred) y p hgp
        rw [keyMem] at hkm
        cases hfy : (satMap g start pred).find? (fun p => p.1 == y) with
        | none => rw [hfy] at hkm; simp at hkm
        | some qy =>
          have hqym : qy ∈ satMap g start pred := List.mem_of_find?_eq_some hfy
          have hqy1 : qy.1 = y := by simpa using List.find?_some hfy
          have hnm := List.find?_eq_none.mp hf qy hqym
          rw [hqy1] at hnm
          exact absurd hmatch hnm
      · intro _
        exact hlk2
    · intro r hr hrne
      rw [hlk2] at hr
      exact absurd hr.symm hrne


/-- C7: `RegisterProbe` on an OVS-bridge node resolves the bridge's graph
path to its host along ownership edges and fails when no such path exists;
when one exists (and the search therefore returns a valid ownership walk
to a host node), the switch transaction reuses the sampling row already
tagged with the probe id derived from the bridge uuid when there is one,
and otherwise inserts a new row with agent `"lo"`, target the allocated
agent's address, header 256, sampling 1, polling 0 and the probe id under
`external_ids`, updating the bridge's `sflow` column to reference the row
in both cases; allocation failure (port exhaustion) is returned as an
error. -/
theorem register_probe_path_and_row (h : HandlerState) (g : GGraph) (n : Node)
    (u addr : String) (lo hi : Nat)
    (hbridge : isOvsBridge n = true)
    (huuid : n.metaLookup "UUID" = some (.str u)) :
    ((¬ ∃ y p, GoodPath g.edges IsOwnershipEdge n.ID y p ∧
        nodeMatches g y "Type" (.str "host") = true) →
      RegisterProbe h g n addr lo hi = .err "Failed to determine probePath") ∧
    ((∃ y p, GoodPath g.edges IsOwnershipEdge n.ID y p ∧
        nodeMatches g y "Type" (.str "host") = true) →
      (∃ y, nodeMatches g y "Type" (.str "host") = true ∧
        GoodPath g.edges IsOwnershipEdge n.ID y
          (lookupShortestPath g n.ID "Type" (.str "host")
            IsOwnershipEdge).reverse) ∧
      (∀ (agent : SFlowAgent) (alloc2 : SFlowAgentAllocator),
        (h.allocator.Alloc u addr lo hi = (.ok agent, alloc2) ∨
          h.allocator.Alloc u addr lo hi = (.alreadyAllocated agent, alloc2)) →
        RegisterProbe h g n addr lo hi =
          .ok (⟨alloc2, h.sflowRows⟩,
            if retrieveSFlowProbeUUID h.sflowRows (probeID u) ≠ "" then
              [.updateBridgeSflow u
                (.ref (retrieveSFlowProbeUUID h.sflowRows (probeID u)))]
            else
              [.insertSFlow ⟨"lo", agent.GetTarget, 256, 1, 0,
                  [("probe-id", probeID u)]⟩ (probeID u),
                .updateBridgeSflow u (.ref (probeID u))])) ∧
      (∀ (a2 : SFlowAgentAllocator),
        h.allocator.Alloc u addr lo hi = (.portExhausted, a2) →
        RegisterProbe h g n addr lo hi = .err "sflow port exhausted")) := by
  have spec := lookupShortestPath_spec g n.ID "Type" (.str "host") IsOwnershipEdge
  constructor
  · intro hno
    have hempty : lookupShortestPath g n.ID "Type" (.str "host")
        IsOwnershipEdge = [] := spec.1.mpr hno
    simp [RegisterProbe, hbridge, hempty]
  · intro hex
    have hne : lookupShortestPath g n.ID "Type" (.str "host")
        IsOwnershipEdge ≠ [] := fun h0 => (spec.1.mp h0) hex
    refine ⟨spec.2 _ rfl hne, ?_, ?_⟩
    · intro agent alloc2 halloc
      have hops : ∀ (tgt : String),
          registerSFlowProbeOnBridge h.sflowRows
            { ID := probeID u, Interface := "lo", Target := tgt,
              HeaderSize := 256, Sampling := 1, Polling := 0,
              ProbeGraphPath := nodePathMarshal (lookupShortestPath g n.ID
                "Type" (.str "host") IsOwnershipEdge) } u =
          if retrieveSFlowProbeUUID h.sflowRows (probeID u) ≠ "" then
            [.updateBridgeSflow u
              (.ref (retrieveSFlowProbeUUID h.sflowRows (probeID u)))]
          else
            [.insertSFlow ⟨"lo", tgt, 256, 1, 0, [("probe-id", probeID u)]⟩
                (probeID u),
              .updateBridgeSflow u (.ref (probeID u))] := by
        intro tgt
        by_cases hr : retrieveSFlowProbeUUID h.sflowRows (probeID u) ≠ ""
        · simp [registerSFlowProbeOnBridge, hr]
        · simp [registerSFlowProbeOnBridge, hr, newInsertSFlowProbeOP]
      have hie : (lookupShortestPath g n.ID "Type" (.str "host")
          IsOwnershipEdge).isEmpty = false := by
        cases hl : lookupShortestPath g n.ID "Type" (.str "host")
            IsOwnershipEdge with
        | nil => exact absurd hl hne
        | cons a as => rfl
      have hre : RegisterProbe h g n addr lo hi =
          match RegisterProbeOnBridge h u
              (nodePathMarshal (lookupShortestPath g n.ID "Type" (.str "host")
                IsOwnershipEdge)) addr lo hi with
          | .ok r => .ok r
          | .error e => .err e := by
        simp only [RegisterProbe]
        rw [if_pos hbridge, hie, if_neg Bool.false_ne_true, huuid]
      rw [hre]
      rcases halloc with halloc | halloc <;>
        simp only [RegisterProbeOnBridge, halloc, hops agent.GetTarget]
    · intro a2 halloc
      have hie : (lookupShortestPath g n.ID "Type" (.str "host")
          IsOwnershipEdge).isEmpty = false := by
        cases hl : lookupShortestPath g n.ID "Type" (.str "host")
            IsOwnershipEdge with
        | nil => exact absurd hl hne
        | cons a as => rfl
      have hre : RegisterProbe h g n addr lo hi =
          match RegisterProbeOnBridge h u
              (nodePathMarshal (lookupShortestPath g n.ID "Type" (.str "host")
                IsOwnershipEdge)) addr lo hi with
          | .ok r => .ok r
          | .error e => .err e := by
        simp only [RegisterProbe]
        rw [if_pos hbridge, hie, if_neg Bool.false_ne_true, huuid]
      rw [hre]
      simp only [RegisterProbeOnBridge, halloc]

/-- The graph of the C7 witness: the host `h1` owning the bridge `br1`. -/
def c7graph : GGraph :=
  ⟨[⟨"h1", [("Type", .str "host")]⟩, c5node], [⟨"h1", "br1", "ownership"⟩]⟩

/-- Witness for C7: a fresh handler registering the connected bridge
`br1` (uuid `abc-1`) inserts the new row and points the bridge at it. -/
theorem register_probe_path_and_row_witness :
    (isOvsBridge c5node = true ∧
      c5node.metaLookup "UUID" = some (.str "abc-1")) ∧
    RegisterProbe ⟨⟨[]⟩, []⟩ c7graph c5node "127.0.0.1" 6345 6346 =
      .ok (⟨⟨[(6345, ⟨"abc-1", "127.0.0.1", 6345⟩)]⟩, []⟩,
        [.insertSFlow ⟨"lo", "127.0.0.1:6345", 256, 1, 0,
            [("probe-id", probeID "abc-1")]⟩ (probeID "abc-1"),
          .updateBridgeSflow "abc-1" (.ref (probeID "abc-1"))]) := by
  refine ⟨⟨by decide, by decide⟩, ?_⟩
  have h2 := (register_probe_path_and_row ⟨⟨[]⟩, []⟩ c7graph c5node "abc-1"
      "127.0.0.1" 6345 6346 (by decide) (by decide)).2
    ⟨"h1", ["h1", "br1"],
      GoodPath.step GoodPath.base (by decide), by decide⟩
  have h3 := h2.2.1 ⟨"abc-1", "127.0.0.1", 6345⟩
    ⟨[(6345, ⟨"abc-1", "127.0.0.1", 6345⟩)]⟩ (Or.inl (by decide))
  rw [h3]
  decide

end Skydive
